import Mathlib

/-!
# Orchard audio bootloader: packet unstriping and the flash updater

A shallow embedding of `demod_loop` (src/orchard/main.c, the unstripe loop) and of
`updaterPacketProcess`, `init_storage_header` and `bootToUserApp`
(src/orchard/updater.c).

Bytes and 32-bit words are natural numbers.  A packet buffer is a `List Nat`.
-/

namespace Orchard

/-! ## Constants -/

/-- Modelled from the spec: `BLOCK_SIZE` (updater.h is not among the sources); the
source comment says "Data is marshalled in 256-byte blocks". -/
def BLOCK_SIZE : Nat := 256

/-- Modelled from the spec: `PKT_LEN` (mac.h is not among the sources), the length of
a data packet `version:u8 | blockIndex:u16 | payload:u8[BLOCK_SIZE] | hash:u32`. -/
def PKT_LEN : Nat := 1 + 2 + BLOCK_SIZE + 4

/-- Modelled from the spec: `PKTTYPE_MASK` (mac.h is not among the sources), bit 7 of
the version byte. -/
def PKTTYPE_MASK : Nat := 0x80

/-- Modelled from the spec: `PKTTYPE_DATA`, version codes 0x00-0x7f. -/
def PKTTYPE_DATA : Nat := 0x00

/-- Modelled from the spec: `PKTTYPE_CTRL`, version codes 0x80-0xff. -/
def PKTTYPE_CTRL : Nat := 0x80

/-- Modelled from the spec: `GUID_BYTES` (updater.h is not among the sources); the
`memcmp` of `updaterPacketProcess` compares 16 bytes. -/
def GUID_BYTES : Nat := 16

/-- The erased value of a 32-bit flash word. -/
def ALL_ONES : Nat := 0xFFFFFFFF

/-! ## Packet buffers -/

/-- Byte `i` of a packet buffer, as a `uint8_t`. -/
def byte (pkt : List Nat) (i : Nat) : Nat := pkt.getD i 0 % 256

/-- The body of the unstripe loop of `demod_loop` for index `i`:
`if (i % 16 == 7) pktBuf[i] ^= 0x55; else if (i % 16 == 15) pktBuf[i] ^= 0xAA;`. -/
def unstripeStep (buf : List Nat) (i : Nat) : List Nat :=
  if i % 16 = 7 then buf.modify (fun b => b ^^^ 0x55) i
  else if i % 16 = 15 then buf.modify (fun b => b ^^^ 0xAA) i
  else buf

/-- The loop `for (i = 0; i < PKT_LEN - 4; i++)` of `demod_loop`. -/
def unstripeLoop (buf : List Nat) : List Nat :=
  (List.range (PKT_LEN - 4)).foldl unstripeStep buf

/-- The unstripe transform of `demod_loop`:
`if ((pktBuf[0] & PKTTYPE_MASK) == PKTTYPE_DATA) { for ... }`. -/
def unstripe (buf : List Nat) : List Nat :=
  if byte buf 0 &&& PKTTYPE_MASK = PKTTYPE_DATA then unstripeLoop buf else buf

/-! ## Flash contents -/

/-- The RAM prototype `storage_header_ram proto` filled in by `init_storage_header`
(the type is declared in updater.h, not among the sources; these are the fields the
function assigns). -/
structure storage_header_ram where
  version : Nat
  magic : Nat
  fullhash : Nat
  length : Nat
  guid : List Nat
deriving DecidableEq, Repr

/-- Modelled from the spec: the contents of the managed flash sectors, namely the
persistent record `storage_header` read through `storageHdr` (declared in updater.h,
not among the sources) and the program region that starts at
`STORAGE_PROGRAM_OFFSET`.  Words are 32-bit values, `guid` and `prog` hold bytes;
`blockmap i` stands for `storageHdr->blockmap[i]` and `prog j` for the byte at
`STORAGE_PROGRAM_OFFSET + j`.  The regions are taken to be disjoint. -/
structure Flash where
  magic : Nat
  version : Nat
  guid : Nat → Nat
  fullhash : Nat
  length : Nat
  blockmap : Nat → Nat
  complete : Nat
  prog : Nat → Nat

/-- The state of the managed sectors after `flashEraseSectors`: all bits set. -/
def Flash.erased : Flash where
  magic := ALL_ONES
  version := ALL_ONES
  guid := fun _ => 0xFF
  fullhash := ALL_ONES
  length := ALL_ONES
  blockmap := fun _ => ALL_ONES
  complete := ALL_ONES
  prog := fun _ => 0xFF

/-- The calls made to the flash driver, one constructor per call site of
updater.c. -/
inductive FlashOp where
  /-- The call `flashEraseSectors(first, count)`. -/
  | erase (first count : Nat)
  /-- The call `flashProgram(&proto, STORAGE_HEADER_OFFSET, sizeof(storage_header_ram))`. -/
  | progHeader (proto : storage_header_ram)
  /-- The call `flashProgram(&dummy, &storageHdr->blockmap[block], sizeof(uint32_t))`
  with `dummy = word`. -/
  | progBlockmap (block word : Nat)
  /-- The call `flashProgram(dpkt->payload, STORAGE_PROGRAM_OFFSET + off, BLOCK_SIZE)`. -/
  | progPayload (off : Nat) (data : List Nat)
  /-- The call `flashProgram(&storageHdr->complete, &dummy, sizeof(uint32_t))`: the
  source is the flash word `complete` (value `word`), the destination is the local
  variable `dummy`. -/
  | progLocal (word : Nat)
deriving DecidableEq, Repr

/-- Modelled from the spec: the effect of a successful driver call (flash.c is not
among the sources).  Programming only clears bits (the new content is the old one
ANDed with the source), erasing returns the managed sectors to all-ones.  A program
whose destination is a local variable leaves the flash as it is. -/
def applyOp (f : Flash) : FlashOp → Flash
  | .erase _ _ => Flash.erased
  | .progHeader p =>
    { f with
      magic := f.magic &&& p.magic
      version := f.version &&& p.version
      fullhash := f.fullhash &&& p.fullhash
      length := f.length &&& p.length
      guid := fun i => if i < GUID_BYTES then f.guid i &&& p.guid.getD i 0 else f.guid i }
  | .progBlockmap b w =>
    { f with blockmap := fun i => if i = b then f.blockmap i &&& w else f.blockmap i }
  | .progPayload off data =>
    { f with prog := fun j =>
        if off ≤ j ∧ j < off + data.length then f.prog j &&& data.getD (j - off) 0
        else f.prog j }
  | .progLocal _ => f

/-- The flash device: its contents, the error codes the driver is going to return for
the coming calls (none left means `F_ERR_OK = 0`), and the log of the calls made. -/
structure Dev where
  flash : Flash
  script : List Int
  ops : List FlashOp

/-- Modelled from the spec: one call of the flash driver (flash.c is not among the
sources).  The call returns the next error code of the script; it takes effect when
that code is 0 and is not applied otherwise. -/
def flashCall (d : Dev) (op : FlashOp) : Int × Dev :=
  let e := d.script.headD 0
  (e, { flash := if e = 0 then applyOp d.flash op else d.flash
        script := d.script.tail
        ops := d.ops ++ [op] })

/-- The call `flashEraseSectors(first, count)`. -/
def flashEraseSectors (d : Dev) (first count : Nat) : Int × Dev :=
  flashCall d (.erase first count)

/-- The call `flashProgram(src, dst, count)`, the triple being given by `op`. -/
def flashProgram (d : Dev) (op : FlashOp) : Int × Dev :=
  flashCall d op

/-! ## Configuration -/

/-- The constants and external functions of the headers that are not among the
sources (updater.h, flash.h, app.h, murmur3.h). -/
structure Config where
  STORAGE_MAGIC : Nat
  STORAGE_VERSION : Nat
  SECTOR_MIN : Nat
  SECTOR_COUNT : Nat
  APP_MAGIC : Nat
  APP_VERSION : Nat
  /-- The field `app->magic` of the application header at 0x5900, as read from flash -/
  app_magic : Flash → Nat
  /-- The field `app->version` of the application header at 0x5900, as read from flash -/
  app_version : Flash → Nat
  /-- The result of `MurmurHash3_x86_32(key, len, MURMUR_SEED_TOTAL, &hash)` on the
  `len` bytes of `key`. -/
  hash : List Nat → Nat

/-! ## The updater -/

/-- The `app_state` enumeration of updater.c. -/
inductive app_state where
  | APP_IDLE
  | APP_GOT_ID
  | APP_UPDATING
  | APP_UPDATED
  | APP_FAIL
deriving DecidableEq, Repr

/-- The function `bootToUserApp`: true when `Run_App(app)` is entered (control goes to the
application and the function never returns), false when the header check fails and
the function returns. -/
def bootToUserApp (cfg : Config) (f : Flash) : Bool :=
  decide (cfg.app_magic f = cfg.APP_MAGIC) && decide (cfg.app_version f = cfg.APP_VERSION)

/-- The expression `b[0] | b[1] << 8 | b[2] << 16 | b[3] << 24` on the four bytes of
`pkt` from offset `off`, as a `uint32_t`. -/
def le32 (pkt : List Nat) (off : Nat) : Nat :=
  (byte pkt off ||| byte pkt (off + 1) <<< 8 ||| byte pkt (off + 2) <<< 16
    ||| byte pkt (off + 3) <<< 24) % 4294967296

/-- Modelled from the spec: offset of `fullhash` in `demod_ctrl_pkt` (mac.h is not
among the sources): `version:u8 | fullImageHash:u32 | imageLength:u32 | guid:u8[16] |
hash:u32`. -/
def CTRL_FULLHASH : Nat := 1

/-- Modelled from the spec: offset of `length` in `demod_ctrl_pkt`. -/
def CTRL_LENGTH : Nat := 5

/-- Modelled from the spec: offset of `guid` in `demod_ctrl_pkt`. -/
def CTRL_GUID : Nat := 9

/-- Modelled from the spec: offset of `block` in `demod_data_pkt` (mac.h is not among
the sources): `version:u8 | blockIndex:u16 | payload:u8[BLOCK_SIZE] | hash:u32`. -/
def DATA_BLOCK : Nat := 1

/-- Modelled from the spec: offset of `payload` in `demod_data_pkt`. -/
def DATA_PAYLOAD : Nat := 3

/-- The prototype header built by `init_storage_header` from a control packet. -/
def protoOf (cfg : Config) (cpkt : List Nat) : storage_header_ram where
  version := cfg.STORAGE_VERSION
  magic := cfg.STORAGE_MAGIC
  fullhash := le32 cpkt CTRL_FULLHASH
  length := le32 cpkt CTRL_LENGTH
  guid := (List.range GUID_BYTES).map (fun i => byte cpkt (CTRL_GUID + i))

/-- The function `init_storage_header`: builds the prototype and programs it; the result of
`flashProgram` is dropped. -/
def init_storage_header (cfg : Config) (d : Dev) (cpkt : List Nat) : Dev :=
  (flashProgram d (.progHeader (protoOf cfg cpkt))).2

/-- The test `memcmp(storageHdr->guid, cpkt->guid, 16) == 0`. -/
def guidMatch (f : Flash) (cpkt : List Nat) : Bool :=
  (List.range 16).all (fun i => decide (f.guid i = byte cpkt (CTRL_GUID + i)))

/-- The value `dpkt->block[0] | dpkt->block[1] << 8`, as a `uint16_t`. -/
def blockOf (dpkt : List Nat) : Nat :=
  (byte dpkt DATA_BLOCK ||| byte dpkt (DATA_BLOCK + 1) <<< 8) % 65536

/-- The array `dpkt->payload`, `BLOCK_SIZE` bytes. -/
def payloadOf (dpkt : List Nat) : List Nat :=
  (List.range BLOCK_SIZE).map (fun k => byte dpkt (DATA_PAYLOAD + k))

/-- The loop bound `((storageHdr->length - 1) / BLOCK_SIZE) + 1` in `uint32_t`
arithmetic. -/
def scanBound (length : Nat) : Nat :=
  ((length + 4294967296 - 1) % 4294967296 / BLOCK_SIZE + 1) % 4294967296

/-- The scan `alldone = 1; for (i = 0; i < bound; i++) if (blockmap[i] == 0xFFFFFFFF)
alldone = 0;` of `updaterPacketProcess`. -/
def alldone (f : Flash) : Nat :=
  (List.range (scanBound f.length)).foldl
    (fun done i => if f.blockmap i = ALL_ONES then 0 else done) 1

/-- The bytes hashed by `MurmurHash3_x86_32((uint8_t *)STORAGE_PROGRAM_OFFSET,
storageHdr->length, ...)`. -/
def image (f : Flash) : List Nat :=
  (List.range f.length).map f.prog

/-- What a call of `updaterPacketProcess` leaves behind: the value returned, the new
`astate`, the flash device, the number of calls of `bootToUserApp`, and whether
`Run_App` was entered (in which case the call never returns). -/
structure Outcome where
  err : Int
  astate : app_state
  dev : Dev
  boots : Nat
  running : Bool

/-- Lines 166-170 of updater.c: the magic check of `APP_UPDATING`.  Returns `err`,
`astate` and the device. -/
def checkMagic (cfg : Config) (d : Dev) : Int × app_state × Dev :=
  if d.flash.magic ≠ cfg.STORAGE_MAGIC then
    let r := flashEraseSectors d cfg.SECTOR_MIN cfg.SECTOR_COUNT
    (r.1, .APP_IDLE, r.2)
  else (0, .APP_UPDATING, d)

/-- Lines 177-194 of updater.c: claim the block in the block map, then program the
payload, when the block map entry is erased. -/
def writeBlock (err : Int) (d : Dev) (dpkt : List Nat) : Int × Dev :=
  let block := blockOf dpkt
  if d.flash.blockmap block = ALL_ONES then
    let r1 := flashProgram d (.progBlockmap block 0)
    flashProgram r1.2 (.progPayload (block * BLOCK_SIZE) (payloadOf dpkt))
  else (err, d)

/-- Lines 210-228 of updater.c: the whole-image hash check once the scan says all
blocks are done. -/
def finish (cfg : Config) (d : Dev) : Outcome :=
  if cfg.hash (image d.flash) = d.flash.fullhash then
    let r := flashProgram d (.progLocal d.flash.complete)
    if bootToUserApp cfg r.2.flash then
      { err := r.1, astate := .APP_UPDATED, dev := r.2, boots := 1, running := true }
    else
      { err := r.1, astate := .APP_FAIL, dev := r.2, boots := 1, running := false }
  else
    let r := flashEraseSectors d cfg.SECTOR_MIN cfg.SECTOR_COUNT
    { err := r.1, astate := .APP_IDLE, dev := r.2, boots := 0, running := false }

/-- The call `updaterPacketProcess(pkt)` made with the global `astate` and the flash device
`d`. -/
def updaterPacketProcess (cfg : Config) (astate : app_state) (d : Dev)
    (pkt : List Nat) : Outcome :=
  match astate with
  | .APP_IDLE =>
    if byte pkt 0 &&& PKTTYPE_MASK ≠ PKTTYPE_CTRL then
      { err := 0, astate := .APP_IDLE, dev := d, boots := 0, running := false }
    else if guidMatch d.flash pkt then
      if d.flash.complete = ALL_ONES then
        { err := 0, astate := .APP_UPDATING, dev := d, boots := 0, running := false }
      else
        { err := 0, astate := .APP_IDLE, dev := d, boots := 0, running := false }
    else
      let r := flashEraseSectors d cfg.SECTOR_MIN cfg.SECTOR_COUNT
      { err := r.1, astate := .APP_UPDATING, dev := init_storage_header cfg r.2 pkt,
        boots := 0, running := false }
  | .APP_UPDATING =>
    let c := checkMagic cfg d
    if byte pkt 0 &&& PKTTYPE_MASK ≠ PKTTYPE_DATA then
      { err := c.1, astate := c.2.1, dev := c.2.2, boots := 0, running := false }
    else
      let w := writeBlock c.1 c.2.2 pkt
      if alldone w.2.flash = 0 then
        { err := w.1, astate := c.2.1, dev := w.2, boots := 0, running := false }
      else finish cfg w.2
  | .APP_UPDATED =>
    if bootToUserApp cfg d.flash then
      { err := 0, astate := .APP_UPDATED, dev := d, boots := 1, running := true }
    else
      { err := 0, astate := .APP_FAIL, dev := d, boots := 1, running := false }
  | s => { err := 0, astate := s, dev := d, boots := 0, running := false }

/-- What the body of the unstripe loop does to a byte `b` stored at buffer index
`j`. -/
def stripeMask (j b : Nat) : Nat :=
  if j % 16 = 7 then b ^^^ 0x55 else if j % 16 = 15 then b ^^^ 0xAA else b

/-- Payload byte `k` of a data packet buffer, `dpkt->payload[k]`. -/
def payloadByte (buf : List Nat) (k : Nat) : Nat := buf.getD (DATA_PAYLOAD + k) 0

/-- The decode of the payload byte `b` at payload offset `k` in the words of the
spec: the bytes at offsets 7 and 15 of each 16-byte payload group are XORed with
0x55 and 0xAA, the others are left alone. -/
def specDecodeByte (k b : Nat) : Nat :=
  if k % 16 = 7 then b ^^^ 0x55 else if k % 16 = 15 then b ^^^ 0xAA else b

/-- A data packet buffer of `PKT_LEN` zero bytes (version 0, block 0). -/
def zeroDataPkt : List Nat := List.replicate PKT_LEN 0

/-- The little-endian decoding of the four packet bytes from offset `off`, in the
words of the spec (`u32 (LE)`). -/
def leDecode (pkt : List Nat) (off : Nat) : Nat :=
  byte pkt off + 256 * byte pkt (off + 1) + 65536 * byte pkt (off + 2)
    + 16777216 * byte pkt (off + 3)

/-- The number of blocks of an image in the words of the spec (invariant I1):
`N = ceil(imageLength / BLOCK_SIZE)`. -/
def specN (imageLength : Nat) : Nat := (imageLength + BLOCK_SIZE - 1) / BLOCK_SIZE

/-- A stand-in for the whole-image hash in the sample configuration. -/
def sampleHash (bs : List Nat) : Nat :=
  bs.foldl (fun h b => (h * 31 + b) % 4294967296) 7

/-- A sample configuration: the application header is taken to be the first two
words of the program region. -/
def sampleCfg : Config where
  STORAGE_MAGIC := 0x600DF00D
  STORAGE_VERSION := 1
  SECTOR_MIN := 22
  SECTOR_COUNT := 10
  APP_MAGIC := 0xD3FBF67A
  APP_VERSION := 0x00000001
  app_magic := fun f =>
    f.prog 0 + 256 * f.prog 1 + 65536 * f.prog 2 + 16777216 * f.prog 3
  app_version := fun f =>
    f.prog 4 + 256 * f.prog 5 + 65536 * f.prog 6 + 16777216 * f.prog 7
  hash := sampleHash

/-- A device with the given flash contents whose driver calls all succeed and whose
log is empty. -/
def Dev.fresh (f : Flash) : Dev := { flash := f, script := [], ops := [] }

/-- A control packet for the guid of sixteen 0xFF bytes (fullhash 0, length 1). -/
def ctrlPktFF : List Nat :=
  [0x80, 0, 0, 0, 0, 1, 0, 0, 0,
   0xFF, 0xFF, 0xFF, 0xFF, 0xFF, 0xFF, 0xFF, 0xFF,
   0xFF, 0xFF, 0xFF, 0xFF, 0xFF, 0xFF, 0xFF, 0xFF, 0, 0, 0, 0]

/-- A control packet for the guid 1, 2, ..., 16 with fullhash 0x04030201 and
length 0x00000200. -/
def ctrlPkt1 : List Nat :=
  [0x80, 1, 2, 3, 4, 0, 2, 0, 0,
   1, 2, 3, 4, 5, 6, 7, 8, 9, 10, 11, 12, 13, 14, 15, 16, 0, 0, 0, 0]

/-- The update session across calls: the global `astate`, the flash device, the
number of calls of `bootToUserApp` so far, and whether `Run_App` was entered. -/
structure Session where
  astate : app_state
  dev : Dev
  boots : Nat
  running : Bool

/-- One more packet handed to `updaterPacketProcess`; nothing is processed any more
once control has gone to the application. -/
def Session.feed (cfg : Config) (s : Session) (pkt : List Nat) : Session :=
  if s.running then s
  else
    { astate := (updaterPacketProcess cfg s.astate s.dev pkt).astate
      dev := (updaterPacketProcess cfg s.astate s.dev pkt).dev
      boots := s.boots + (updaterPacketProcess cfg s.astate s.dev pkt).boots
      running := (updaterPacketProcess cfg s.astate s.dev pkt).running }

/-- The packets of a list handed to `updaterPacketProcess` one after the other. -/
def runPackets (cfg : Config) (s : Session) (pkts : List (List Nat)) : Session :=
  pkts.foldl (Session.feed cfg) s

/-- The session after reset: `astate = APP_IDLE`, flash contents `f`, all driver
calls succeeding. -/
def Session.start (f : Flash) : Session :=
  { astate := .APP_IDLE, dev := Dev.fresh f, boots := 0, running := false }

/-- A ledger of the sample configuration for an image of `len` bytes with whole-image
hash `fullhash`: header written, nothing claimed, program region erased. -/
def sampleLedger (len fullhash : Nat) : Flash :=
  { Flash.erased with
    magic := 0x600DF00D
    version := 1
    fullhash := fullhash
    length := len
    guid := fun i => i + 1 }

/-- The ledger `sampleLedger len fullhash` with block 0 already claimed. -/
def claimedLedger (len fullhash : Nat) : Flash :=
  { sampleLedger len fullhash with
    blockmap := fun i => if i = 0 then 0 else ALL_ONES }

/-- An 8-byte application image: the application header of the sample configuration
(`APP_MAGIC`, `APP_VERSION`, little-endian). -/
def appImage : List Nat := [0x7A, 0xF6, 0xFB, 0xD3, 1, 0, 0, 0]

/-- The control packet announcing `appImage`: fullhash `sampleHash appImage =
0x1C59935A`, length 8, guid 1, ..., 16. -/
def appCtrlPkt : List Nat :=
  [0x80, 0x5A, 0x93, 0x59, 0x1C, 8, 0, 0, 0,
   1, 2, 3, 4, 5, 6, 7, 8, 9, 10, 11, 12, 13, 14, 15, 16, 0, 0, 0, 0]

/-- The data packet of block 0 of `appImage`, the payload padded with zero bytes. -/
def appDataPkt : List Nat := [0, 0, 0] ++ appImage ++ List.replicate 252 0

/-- The packet `p` is a data packet that carries a block of the image `img`: payload
byte `k` is the image byte at offset `blockOf p * BLOCK_SIZE + k`. -/
def carries (img : Nat → Nat) (p : List Nat) : Prop :=
  byte p 0 &&& PKTTYPE_MASK = PKTTYPE_DATA ∧
  ∀ k, k < BLOCK_SIZE → byte p (DATA_PAYLOAD + k) = img (blockOf p * BLOCK_SIZE + k)

/-- The session in the middle of the transfer of the image `img` of `L` bytes and
whole-image hash `H`, the blocks of `done` having been received: the state is
`APP_UPDATING`, the header is in place, exactly the blocks of `done` are claimed and
programmed, and the rest of the flash is erased. -/
structure MidTransfer (cfg : Config) (L H : Nat) (img : Nat → Nat) (done : List Nat)
    (s : Session) : Prop where
  astate : s.astate = .APP_UPDATING
  running : s.running = false
  boots : s.boots = 0
  script : s.dev.script = []
  magic : s.dev.flash.magic = cfg.STORAGE_MAGIC
  length : s.dev.flash.length = L
  fullhash : s.dev.flash.fullhash = H
  blockmap : ∀ i, s.dev.flash.blockmap i = if i ∈ done then 0 else ALL_ONES
  prog : ∀ j, s.dev.flash.prog j = if j / BLOCK_SIZE ∈ done then img j else 0xFF

/-- The transfer has ended: `bootToUserApp` has been called once, and the state is
`APP_UPDATED` when control went to the application, `APP_FAIL` when the handoff
returned. -/
def Completed (s : Session) : Prop :=
  s.boots = 1 ∧ s.astate = (if s.running then .APP_UPDATED else .APP_FAIL)

/-- The ledger `sampleLedger 512 0` with a schema version other than
`STORAGE_VERSION` of the sample configuration. -/
def wrongVersionLedger : Flash :=
  { sampleLedger 512 0 with version := 2 }

/-- The results the driver returns for the first `n` calls made from a device whose
script is `script`. -/
def callResults (script : List Int) (n : Nat) : List Int :=
  (List.range n).map (fun i => script.getD i 0)

/-- The value to return in the words of the spec, given the results of the flash
operations of the call in order: the most recent flash error (the result of the last
operation that failed), and 0 when no operation failed. -/
def specErr (results : List Int) : Int :=
  (results.filter (fun e => decide (e ≠ 0))).getLastD 0

/-- From the device `d` with `err = e`, `n` driver calls whose results are assigned to
`err` lead to the device `d'` with `err = e'`: the log has grown by `n` calls, the
script has lost its first `n` entries, and `e'` is the result of the last of the
calls (`e` when `n = 0`). -/
def Advances (d : Dev) (e : Int) (n : Nat) (d' : Dev) (e' : Int) : Prop :=
  (∃ new, d'.ops = d.ops ++ new ∧ new.length = n) ∧
  d'.script = d.script.drop n ∧
  e' = (if n = 0 then e else d.script.getD (n - 1) 0)

/-- The data packet of block 1 with a payload of zero bytes. -/
def blockOnePkt : List Nat := [0, 1, 0] ++ List.replicate 260 0

/-- The flash contents after lines 177-194 of updater.c when both driver calls
succeed: the block of the packet is claimed and its payload programmed when the block
map entry reads all-ones, and nothing changes otherwise. -/
def claimWrite (f : Flash) (dpkt : List Nat) : Flash :=
  if f.blockmap (blockOf dpkt) = ALL_ONES then
    applyOp (applyOp f (.progBlockmap (blockOf dpkt) 0))
      (.progPayload (blockOf dpkt * BLOCK_SIZE) (payloadOf dpkt))
  else f

/-- The state, the flash contents and the number of calls of `bootToUserApp` after
lines 196-229 of updater.c on the flash contents `g`, when the driver calls succeed
and the handoff returns. -/
def settle (cfg : Config) (g : Flash) : app_state × Flash × Nat :=
  if alldone g = 0 then (.APP_UPDATING, g, 0)
  else if cfg.hash (image g) = g.fullhash then (.APP_FAIL, g, 1)
  else (.APP_IDLE, Flash.erased, 0)

/-- The session in `APP_UPDATING` on the device `d`, `bootToUserApp` not yet
called. -/
def Session.updating (d : Dev) : Session :=
  { astate := .APP_UPDATING, dev := d, boots := 0, running := false }

/-- The sample configuration with an application header that never validates, so that
`bootToUserApp` always returns. -/
def noBootCfg : Config :=
  { sampleCfg with app_magic := fun _ => 0 }

/-- The flash contents `f` with the schema version of the ledger replaced by `v`. -/
def withVersion (f : Flash) (v : Nat) : Flash :=
  { f with version := v }

/-- Two flash contents that agree on everything except, possibly, the schema version
of the ledger. -/
def EqUpToVersion (f g : Flash) : Prop :=
  f.magic = g.magic ∧ f.guid = g.guid ∧ f.fullhash = g.fullhash ∧ f.length = g.length ∧
  f.blockmap = g.blockmap ∧ f.complete = g.complete ∧ f.prog = g.prog

/-- Two devices with the same pending driver results and the same log whose flash
contents agree up to the schema version. -/
def DevEqUpToVersion (d e : Dev) : Prop :=
  d.script = e.script ∧ d.ops = e.ops ∧ EqUpToVersion d.flash e.flash

/-! ## Theorems: the packet codec -/

theorem getElem?_unstripeStep (buf : List Nat) (i j : Nat) :
    (unstripeStep buf i)[j]? = (buf[j]?).map (fun b => if i = j then stripeMask j b else b) := by
  unfold unstripeStep stripeMask
  by_cases h7 : i % 16 = 7
  · simp only [h7, if_true, List.getElem?_modify]
    by_cases hij : i = j
    · subst hij; simp [h7]
    · simp [hij]
  · by_cases h15 : i % 16 = 15
    · simp only [h7, h15, if_true, if_false, List.getElem?_modify]
      by_cases hij : i = j
      · subst hij; simp [h7, h15]
      · simp [hij]
    · simp only [h7, h15, if_false]
      by_cases hij : i = j
      · subst hij; simp [h7, h15]
      · simp [hij]

theorem getElem?_foldl_unstripeStep (n : Nat) (buf : List Nat) (j : Nat) :
    ((List.range n).foldl unstripeStep buf)[j]?
      = (buf[j]?).map (fun b => if j < n then stripeMask j b else b) := by
  induction n with
  | zero => simp
  | succ n ih =>
    rw [List.range_succ, List.foldl_append, List.foldl_cons, List.foldl_nil,
      getElem?_unstripeStep, ih]
    cases buf[j]? with
    | none => rfl
    | some b =>
      simp only [Option.map_some']
      by_cases hj : j < n
      · have h1 : n ≠ j := by omega
        have h2 : j < n + 1 := by omega
        simp [hj, h1, h2]
      · by_cases hjn : n = j
        · subst hjn; simp
        · have h2 : ¬ j < n + 1 := by omega
          simp [hj, hjn, h2]

theorem getElem?_unstripeLoop (buf : List Nat) (j : Nat) :
    (unstripeLoop buf)[j]?
      = (buf[j]?).map (fun b => if j < PKT_LEN - 4 then stripeMask j b else b) :=
  getElem?_foldl_unstripeStep (PKT_LEN - 4) buf j

theorem stripeMask_stripeMask (j b : Nat) : stripeMask j (stripeMask j b) = b := by
  unfold stripeMask
  by_cases h7 : j % 16 = 7
  · simp [h7, Nat.xor_assoc]
  · by_cases h15 : j % 16 = 15
    · simp [h7, h15, Nat.xor_assoc]
    · simp [h7, h15]

theorem byte_unstripeLoop_zero (buf : List Nat) : byte (unstripeLoop buf) 0 = byte buf 0 := by
  unfold byte
  rw [List.getD_eq_getElem?_getD, List.getD_eq_getElem?_getD, getElem?_unstripeLoop]
  cases buf[0]? with
  | none => rfl
  | some b => simp [stripeMask]

theorem unstripeLoop_unstripeLoop (buf : List Nat) : unstripeLoop (unstripeLoop buf) = buf := by
  apply List.ext_getElem?
  intro j
  rw [getElem?_unstripeLoop, getElem?_unstripeLoop]
  cases buf[j]? with
  | none => rfl
  | some b =>
    simp only [Option.map_some']
    by_cases hj : j < PKT_LEN - 4
    · simp [hj, stripeMask_stripeMask]
    · simp [hj]

theorem getD_unstripeLoop (buf : List Nat) (j : Nat) (hj : j < buf.length) :
    (unstripeLoop buf).getD j 0
      = if j < PKT_LEN - 4 then stripeMask j (buf.getD j 0) else buf.getD j 0 := by
  rw [List.getD_eq_getElem?_getD, List.getD_eq_getElem?_getD, getElem?_unstripeLoop,
    List.getElem?_eq_getElem hj]
  by_cases h : j < PKT_LEN - 4
  · simp [h]
  · simp [h]

theorem zeroDataPkt_length : zeroDataPkt.length = PKT_LEN := by
  simp [zeroDataPkt]

theorem zeroDataPkt_getD (j : Nat) : zeroDataPkt.getD j 0 = 0 := by
  unfold zeroDataPkt
  rw [List.getD_eq_getElem?_getD, List.getElem?_replicate]
  by_cases h : j < PKT_LEN
  · simp [h]
  · simp [h]

theorem zeroDataPkt_isData : byte zeroDataPkt 0 &&& PKTTYPE_MASK = PKTTYPE_DATA := by
  unfold byte
  rw [zeroDataPkt_getD]
  decide

/-- C7: the unstripe transform of `demod_loop` is an involution on every packet
buffer, data or control, and it never alters the type tag in byte 0. -/
theorem unstripe_involutive (buf : List Nat) :
    unstripe (unstripe buf) = buf ∧ (unstripe buf)[0]? = buf[0]? := by
  unfold unstripe
  by_cases h : byte buf 0 &&& PKTTYPE_MASK = PKTTYPE_DATA
  · simp only [h, if_true, byte_unstripeLoop_zero, unstripeLoop_unstripeLoop, true_and]
    rw [getElem?_unstripeLoop]
    cases buf[0]? with
    | none => rfl
    | some b => simp [stripeMask]
  · simp only [h, if_false, and_self]

/-- C8 as stated fails: on the all-zero data packet the decode leaves payload offset 7
alone, so it is not true that every data packet has exactly the payload bytes at
group offsets 7 and 15 XORed with 0x55 and 0xAA. -/
theorem unstripe_not_payload_offsets_7_15 :
    ¬ (∀ buf : List Nat, buf.length = PKT_LEN →
        byte buf 0 &&& PKTTYPE_MASK = PKTTYPE_DATA →
        ∀ k, k < BLOCK_SIZE →
          payloadByte (unstripe buf) k = specDecodeByte k (payloadByte buf k)) := by
  intro h
  have h7 := h zeroDataPkt zeroDataPkt_length zeroDataPkt_isData 7 (by decide)
  have hl : DATA_PAYLOAD + 7 < zeroDataPkt.length := by
    rw [zeroDataPkt_length]; decide
  have hz : zeroDataPkt.getD (DATA_PAYLOAD + 7) 0 = 0 := zeroDataPkt_getD _
  have ht : byte zeroDataPkt 0 &&& PKTTYPE_MASK = PKTTYPE_DATA := zeroDataPkt_isData
  unfold payloadByte unstripe at h7
  rw [if_pos ht, getD_unstripeLoop _ _ hl, hz] at h7
  revert h7
  decide

/-- C8, amended: the loop index of the unstripe loop runs over the packet buffer from
the version byte, so for a data packet the bytes XORed with 0x55 and 0xAA are those at
payload offsets 4 and 12 of each 16-byte payload group (buffer offsets 7 and 15 modulo
16); every other payload byte, the version byte, the two block index bytes and the
four trailing hash bytes are unchanged. -/
theorem unstripe_data_packet (buf : List Nat) (hlen : buf.length = PKT_LEN)
    (hdata : byte buf 0 &&& PKTTYPE_MASK = PKTTYPE_DATA) :
    (∀ k, k < BLOCK_SIZE →
      payloadByte (unstripe buf) k
        = if k % 16 = 4 then payloadByte buf k ^^^ 0x55
          else if k % 16 = 12 then payloadByte buf k ^^^ 0xAA
          else payloadByte buf k) ∧
    (unstripe buf).getD 0 0 = buf.getD 0 0 ∧
    (∀ i, i < 2 → (unstripe buf).getD (DATA_BLOCK + i) 0 = buf.getD (DATA_BLOCK + i) 0) ∧
    (∀ i, i < 4 → (unstripe buf).getD (PKT_LEN - 4 + i) 0 = buf.getD (PKT_LEN - 4 + i) 0) := by
  unfold unstripe
  rw [if_pos hdata]
  have hP : PKT_LEN = 263 := by decide
  refine ⟨?_, ?_, ?_, ?_⟩
  · intro k hk
    have hB : BLOCK_SIZE = 256 := by decide
    have hD : DATA_PAYLOAD = 3 := by decide
    unfold payloadByte
    rw [getD_unstripeLoop _ _ (by omega)]
    have h1 : DATA_PAYLOAD + k < PKT_LEN - 4 := by omega
    rw [if_pos h1]
    unfold stripeMask
    have e7 : ((DATA_PAYLOAD + k) % 16 = 7) = (k % 16 = 4) := by
      apply propext; omega
    have e15 : ((DATA_PAYLOAD + k) % 16 = 15) = (k % 16 = 12) := by
      apply propext; omega
    simp only [e7, e15]
  · rw [getD_unstripeLoop _ _ (by omega)]
    simp [stripeMask, hP]
  · intro i hi
    have hD : DATA_BLOCK = 1 := by decide
    rw [getD_unstripeLoop _ _ (by omega)]
    have h1 : i = 0 ∨ i = 1 := by omega
    rcases h1 with h1 | h1 <;> subst h1 <;> simp [stripeMask, hP, hD]
  · intro i hi
    rw [getD_unstripeLoop _ _ (by omega)]
    have h1 : ¬ (PKT_LEN - 4 + i < PKT_LEN - 4) := by omega
    rw [if_neg h1]

/-- Witness for C8, amended: the all-zero data packet. -/
theorem unstripe_data_packet_witness :
    zeroDataPkt.length = PKT_LEN ∧ byte zeroDataPkt 0 &&& PKTTYPE_MASK = PKTTYPE_DATA ∧
    payloadByte (unstripe zeroDataPkt) 4 = payloadByte zeroDataPkt 4 ^^^ 0x55 :=
  ⟨zeroDataPkt_length, zeroDataPkt_isData,
   (unstripe_data_packet zeroDataPkt zeroDataPkt_length zeroDataPkt_isData).1 4 (by decide)⟩

/-! ## Theorems: the updater -/

theorem byte_lt (pkt : List Nat) (i : Nat) : byte pkt i < 256 :=
  Nat.mod_lt _ (by decide)

theorem allOnes_and (x : Nat) (h : x < 4294967296) : ALL_ONES &&& x = x := by
  have e := Nat.and_pow_two_sub_one_eq_mod x 32
  rw [Nat.and_comm]
  simpa [ALL_ONES, Nat.mod_eq_of_lt h] using e

theorem ff_and (x : Nat) (h : x < 256) : 0xFF &&& x = x := by
  have e := Nat.and_pow_two_sub_one_eq_mod x 8
  rw [Nat.and_comm]
  simpa [Nat.mod_eq_of_lt h] using e

theorem or_shift_eq (a b c d : Nat) (ha : a < 256) (hb : b < 256) (hc : c < 256) :
    a ||| b <<< 8 ||| c <<< 16 ||| d <<< 24 = a + 256 * b + 65536 * c + 16777216 * d := by
  have h1 : 2 ^ 8 * b + a = 2 ^ 8 * b ||| a := Nat.mul_add_lt_is_or (by omega) b
  have h2 : 2 ^ 16 * c + (a + 256 * b) = 2 ^ 16 * c ||| (a + 256 * b) :=
    Nat.mul_add_lt_is_or (by omega) c
  have h3 : 2 ^ 24 * d + (a + 256 * b + 65536 * c) = 2 ^ 24 * d ||| (a + 256 * b + 65536 * c) :=
    Nat.mul_add_lt_is_or (by omega) d
  have e1 : b <<< 8 = 2 ^ 8 * b := by rw [Nat.shiftLeft_eq, Nat.mul_comm]
  have e2 : c <<< 16 = 2 ^ 16 * c := by rw [Nat.shiftLeft_eq, Nat.mul_comm]
  have e3 : d <<< 24 = 2 ^ 24 * d := by rw [Nat.shiftLeft_eq, Nat.mul_comm]
  have k1 : a ||| b <<< 8 = a + 256 * b := by
    rw [Nat.or_comm, e1, ← h1]; omega
  have k2 : a ||| b <<< 8 ||| c <<< 16 = a + 256 * b + 65536 * c := by
    rw [k1, Nat.or_comm, e2, ← h2]; omega
  rw [k2, Nat.or_comm, e3, ← h3]; omega

theorem le32_eq_leDecode (pkt : List Nat) (off : Nat) : le32 pkt off = leDecode pkt off := by
  unfold le32 leDecode
  have h0 := byte_lt pkt off
  have h1 := byte_lt pkt (off + 1)
  have h2 := byte_lt pkt (off + 2)
  have h3 := byte_lt pkt (off + 3)
  rw [or_shift_eq _ _ _ _ h0 h1 h2]
  omega

theorem guidMatch_iff (f : Flash) (cpkt : List Nat) :
    guidMatch f cpkt = true ↔ ∀ i, i < 16 → f.guid i = byte cpkt (CTRL_GUID + i) := by
  unfold guidMatch
  simp [List.all_eq_true]

/-- C3 (P2/P3, replay guard and resume): a control packet processed in `APP_IDLE` whose
guid equals the guid of the ledger makes no call to the flash driver (the device, its
contents and its log are unchanged), returns 0, and the next state is `APP_UPDATING`
when `complete` is all-ones and `APP_IDLE` otherwise. -/
theorem idle_control_same_guid (cfg : Config) (d : Dev) (pkt : List Nat)
    (hctrl : byte pkt 0 &&& PKTTYPE_MASK = PKTTYPE_CTRL)
    (hguid : ∀ i, i < 16 → d.flash.guid i = byte pkt (CTRL_GUID + i)) :
    (updaterPacketProcess cfg .APP_IDLE d pkt).dev = d ∧
    (updaterPacketProcess cfg .APP_IDLE d pkt).err = 0 ∧
    (updaterPacketProcess cfg .APP_IDLE d pkt).boots = 0 ∧
    (updaterPacketProcess cfg .APP_IDLE d pkt).astate
      = if d.flash.complete = ALL_ONES then .APP_UPDATING else .APP_IDLE := by
  have hg : guidMatch d.flash pkt = true := (guidMatch_iff _ _).2 hguid
  unfold updaterPacketProcess
  simp only [hctrl, ne_eq, not_true_eq_false, if_false, hg, if_true]
  by_cases hc : d.flash.complete = ALL_ONES
  · simp [hc]
  · simp [hc]

/-- Witness for C3: the erased ledger and a control packet whose guid is sixteen 0xFF
bytes. -/
theorem idle_control_same_guid_witness :
    (updaterPacketProcess sampleCfg .APP_IDLE (Dev.fresh Flash.erased) ctrlPktFF).dev
      = Dev.fresh Flash.erased ∧
    (updaterPacketProcess sampleCfg .APP_IDLE (Dev.fresh Flash.erased) ctrlPktFF).err = 0 ∧
    (updaterPacketProcess sampleCfg .APP_IDLE (Dev.fresh Flash.erased) ctrlPktFF).boots = 0 ∧
    (updaterPacketProcess sampleCfg .APP_IDLE (Dev.fresh Flash.erased) ctrlPktFF).astate
      = if (Dev.fresh Flash.erased).flash.complete = ALL_ONES then .APP_UPDATING
        else .APP_IDLE :=
  idle_control_same_guid sampleCfg (Dev.fresh Flash.erased) ctrlPktFF (by decide) (by decide)

theorem idle_new_guid_eq (cfg : Config) (d : Dev) (pkt : List Nat)
    (hctrl : byte pkt 0 &&& PKTTYPE_MASK = PKTTYPE_CTRL)
    (hguid : ¬ ∀ i, i < 16 → d.flash.guid i = byte pkt (CTRL_GUID + i)) :
    updaterPacketProcess cfg .APP_IDLE d pkt
      = { err := (flashEraseSectors d cfg.SECTOR_MIN cfg.SECTOR_COUNT).1
          astate := .APP_UPDATING
          dev := init_storage_header cfg
            (flashEraseSectors d cfg.SECTOR_MIN cfg.SECTOR_COUNT).2 pkt
          boots := 0
          running := false } := by
  have hg : guidMatch d.flash pkt = false := by
    cases h : guidMatch d.flash pkt with
    | false => rfl
    | true => exact absurd ((guidMatch_iff _ _).1 h) hguid
  unfold updaterPacketProcess
  simp [hctrl, hg]

/-- C6 (new-image start): a control packet processed in `APP_IDLE` whose guid differs
from the guid of the ledger first erases the managed sectors and then programs the
ledger header, and the next state is `APP_UPDATING`; when both driver calls succeed
the ledger holds the magic, the version, the guid bytes of the packet, the
little-endian decoding of its fullhash and length fields, and all-ones in every block
map entry and in `complete`. -/
theorem idle_control_new_guid (cfg : Config) (d : Dev) (pkt : List Nat)
    (hM : cfg.STORAGE_MAGIC < 4294967296) (hV : cfg.STORAGE_VERSION < 4294967296)
    (hctrl : byte pkt 0 &&& PKTTYPE_MASK = PKTTYPE_CTRL)
    (hguid : ¬ ∀ i, i < 16 → d.flash.guid i = byte pkt (CTRL_GUID + i)) :
    (updaterPacketProcess cfg .APP_IDLE d pkt).dev.ops
      = d.ops ++ [.erase cfg.SECTOR_MIN cfg.SECTOR_COUNT, .progHeader (protoOf cfg pkt)] ∧
    (updaterPacketProcess cfg .APP_IDLE d pkt).astate = .APP_UPDATING ∧
    (updaterPacketProcess cfg .APP_IDLE d pkt).boots = 0 ∧
    (d.script.headD 0 = 0 → d.script.tail.headD 0 = 0 →
      (updaterPacketProcess cfg .APP_IDLE d pkt).dev.flash.magic = cfg.STORAGE_MAGIC ∧
      (updaterPacketProcess cfg .APP_IDLE d pkt).dev.flash.version = cfg.STORAGE_VERSION ∧
      (∀ i, i < 16 →
        (updaterPacketProcess cfg .APP_IDLE d pkt).dev.flash.guid i
          = byte pkt (CTRL_GUID + i)) ∧
      (updaterPacketProcess cfg .APP_IDLE d pkt).dev.flash.fullhash
        = leDecode pkt CTRL_FULLHASH ∧
      (updaterPacketProcess cfg .APP_IDLE d pkt).dev.flash.length
        = leDecode pkt CTRL_LENGTH ∧
      (∀ i, (updaterPacketProcess cfg .APP_IDLE d pkt).dev.flash.blockmap i = ALL_ONES) ∧
      (updaterPacketProcess cfg .APP_IDLE d pkt).dev.flash.complete = ALL_ONES) := by
  rw [idle_new_guid_eq cfg d pkt hctrl hguid]
  refine ⟨?_, rfl, rfl, ?_⟩
  · simp [init_storage_header, flashProgram, flashEraseSectors, flashCall]
  · intro h1 h2
    have hl1 := le32_eq_leDecode pkt CTRL_FULLHASH
    have hl2 := le32_eq_leDecode pkt CTRL_LENGTH
    have hb1 : le32 pkt CTRL_FULLHASH < 4294967296 := Nat.mod_lt _ (by decide)
    have hb2 : le32 pkt CTRL_LENGTH < 4294967296 := Nat.mod_lt _ (by decide)
    simp only [init_storage_header, flashProgram, flashEraseSectors, flashCall, h1, h2,
      if_true, applyOp, Flash.erased, protoOf]
    refine ⟨allOnes_and _ hM, allOnes_and _ hV, ?_, ?_, ?_, fun _ => trivial, trivial⟩
    · intro i hi
      have hi2 : i < GUID_BYTES := hi
      simp only [hi2, if_true]
      rw [List.getD_eq_getElem?_getD, List.getElem?_map, List.getElem?_range hi2]
      exact ff_and _ (byte_lt _ _)
    · rw [allOnes_and _ hb1, hl1]
    · rw [allOnes_and _ hb2, hl2]

/-- Witness for C6: the erased ledger and a control packet for the guid 1, ..., 16. -/
theorem idle_control_new_guid_witness :
    (updaterPacketProcess sampleCfg .APP_IDLE (Dev.fresh Flash.erased) ctrlPkt1).dev.ops
      = [.erase 22 10, .progHeader (protoOf sampleCfg ctrlPkt1)] ∧
    (updaterPacketProcess sampleCfg .APP_IDLE (Dev.fresh Flash.erased) ctrlPkt1).dev.flash.length
      = 512 := by
  have h := idle_control_new_guid sampleCfg (Dev.fresh Flash.erased) ctrlPkt1
    (by decide) (by decide) (by decide) (by decide)
  exact ⟨h.1, (h.2.2.2 rfl rfl).2.2.2.2.1⟩

/-! ### The stages of `APP_UPDATING` -/

theorem isData_not_ctrl (pkt : List Nat)
    (hdata : byte pkt 0 &&& PKTTYPE_MASK = PKTTYPE_DATA) :
    byte pkt 0 &&& PKTTYPE_MASK ≠ PKTTYPE_CTRL := by
  rw [hdata]; decide

theorem writeBlock_claimed (err : Int) (d : Dev) (pkt : List Nat)
    (h : d.flash.blockmap (blockOf pkt) ≠ ALL_ONES) : writeBlock err d pkt = (err, d) := by
  unfold writeBlock
  simp [h]

theorem writeBlock_free (err : Int) (d : Dev) (pkt : List Nat)
    (h : d.flash.blockmap (blockOf pkt) = ALL_ONES) :
    writeBlock err d pkt
      = flashProgram (flashProgram d (.progBlockmap (blockOf pkt) 0)).2
          (.progPayload (blockOf pkt * BLOCK_SIZE) (payloadOf pkt)) := by
  unfold writeBlock
  simp [h]

theorem writeBlock_ops_free (err : Int) (d : Dev) (pkt : List Nat)
    (h : d.flash.blockmap (blockOf pkt) = ALL_ONES) :
    (writeBlock err d pkt).2.ops
      = d.ops ++ [.progBlockmap (blockOf pkt) 0,
                  .progPayload (blockOf pkt * BLOCK_SIZE) (payloadOf pkt)] := by
  rw [writeBlock_free err d pkt h]
  simp [flashProgram, flashCall]

theorem flashCall_flash_ok (d : Dev) (op : FlashOp) (he : d.script.headD 0 = 0) :
    (flashCall d op).2.flash = applyOp d.flash op := by
  unfold flashCall
  simp only [he, if_true]

theorem flashCall_flash_fail (d : Dev) (op : FlashOp) (he : d.script.headD 0 ≠ 0) :
    (flashCall d op).2.flash = d.flash := by
  unfold flashCall
  simp only [he, if_false]

theorem flashCall_ops (d : Dev) (op : FlashOp) : (flashCall d op).2.ops = d.ops ++ [op] := rfl

theorem flashCall_script (d : Dev) (op : FlashOp) :
    (flashCall d op).2.script = d.script.tail := rfl

theorem flashCall_err (d : Dev) (op : FlashOp) : (flashCall d op).1 = d.script.headD 0 := rfl

theorem flashCall_magic (d : Dev) (op : FlashOp)
    (h : ∀ a b, op ≠ .erase a b) (h2 : ∀ p, op ≠ .progHeader p) :
    (flashCall d op).2.flash.magic = d.flash.magic ∧
    (flashCall d op).2.flash.length = d.flash.length ∧
    (flashCall d op).2.flash.fullhash = d.flash.fullhash ∧
    (flashCall d op).2.flash.complete = d.flash.complete := by
  by_cases he : d.script.headD 0 = 0
  · rw [flashCall_flash_ok d op he]
    cases op with
    | erase a b => exact absurd rfl (h a b)
    | progHeader p => exact absurd rfl (h2 p)
    | progBlockmap b w => exact ⟨rfl, rfl, rfl, rfl⟩
    | progPayload o l => exact ⟨rfl, rfl, rfl, rfl⟩
    | progLocal w => exact ⟨rfl, rfl, rfl, rfl⟩
  · rw [flashCall_flash_fail d op he]
    exact ⟨rfl, rfl, rfl, rfl⟩

theorem writeBlock_header (err : Int) (d : Dev) (pkt : List Nat) :
    (writeBlock err d pkt).2.flash.magic = d.flash.magic ∧
    (writeBlock err d pkt).2.flash.length = d.flash.length ∧
    (writeBlock err d pkt).2.flash.fullhash = d.flash.fullhash ∧
    (writeBlock err d pkt).2.flash.complete = d.flash.complete := by
  by_cases h : d.flash.blockmap (blockOf pkt) = ALL_ONES
  · rw [writeBlock_free err d pkt h]
    unfold flashProgram
    have h1 := flashCall_magic d (.progBlockmap (blockOf pkt) 0)
      (fun _ _ => by simp) (fun _ => by simp)
    have h2 := flashCall_magic (flashCall d (.progBlockmap (blockOf pkt) 0)).2
      (.progPayload (blockOf pkt * BLOCK_SIZE) (payloadOf pkt))
      (fun _ _ => by simp) (fun _ => by simp)
    exact ⟨h2.1.trans h1.1, h2.2.1.trans h1.2.1, h2.2.2.1.trans h1.2.2.1,
      h2.2.2.2.trans h1.2.2.2⟩
  · rw [writeBlock_claimed err d pkt h]
    exact ⟨rfl, rfl, rfl, rfl⟩

theorem alldone_fold_zero (f : Flash) (l : List Nat) :
    l.foldl (fun done i => if f.blockmap i = ALL_ONES then 0 else done) 0 = 0 := by
  induction l with
  | nil => rfl
  | cons a l ih =>
    rw [List.foldl_cons]
    by_cases h : f.blockmap a = ALL_ONES
    · simp only [h, if_true]; exact ih
    · simp only [h, if_false]; exact ih

theorem alldone_fold (f : Flash) (l : List Nat) :
    l.foldl (fun done i => if f.blockmap i = ALL_ONES then 0 else done) 1
      = if ∃ i, i ∈ l ∧ f.blockmap i = ALL_ONES then 0 else 1 := by
  induction l with
  | nil => simp
  | cons a l ih =>
    rw [List.foldl_cons]
    by_cases h : f.blockmap a = ALL_ONES
    · simp only [h, if_true, alldone_fold_zero]
      rw [if_pos ⟨a, List.mem_cons_self a l, h⟩]
    · simp only [h, if_false, ih]
      by_cases hex : ∃ i, i ∈ l ∧ f.blockmap i = ALL_ONES
      · obtain ⟨i, hi, hb⟩ := hex
        rw [if_pos ⟨i, hi, hb⟩, if_pos ⟨i, List.mem_cons_of_mem a hi, hb⟩]
      · rw [if_neg hex, if_neg]
        rintro ⟨i, hi, hb⟩
        rcases List.mem_cons.1 hi with hia | hil
        · exact h (hia ▸ hb)
        · exact hex ⟨i, hil, hb⟩

theorem alldone_eq_zero_iff (f : Flash) :
    alldone f = 0 ↔ ∃ i, i < scanBound f.length ∧ f.blockmap i = ALL_ONES := by
  unfold alldone
  rw [alldone_fold]
  by_cases h : ∃ i, i ∈ List.range (scanBound f.length) ∧ f.blockmap i = ALL_ONES
  · rw [if_pos h]
    obtain ⟨i, hi, hb⟩ := h
    exact ⟨fun _ => ⟨i, List.mem_range.1 hi, hb⟩, fun _ => rfl⟩
  · rw [if_neg h]
    constructor
    · intro h1; exact absurd h1 (by decide)
    · rintro ⟨i, hi, hb⟩
      exact absurd ⟨i, List.mem_range.2 hi, hb⟩ h

theorem scanBound_eq_specN (len : Nat) (h1 : 1 ≤ len) (h2 : len < 4294967296) :
    scanBound len = specN len := by
  unfold scanBound specN BLOCK_SIZE
  omega

theorem specN_le_scanBound (len : Nat) (h2 : len < 4294967296) :
    specN len ≤ scanBound len := by
  unfold scanBound specN BLOCK_SIZE
  omega

theorem scanBound_zero : scanBound 0 = 16777216 := by decide

theorem updating_data_ok (cfg : Config) (d : Dev) (pkt : List Nat)
    (hmagic : d.flash.magic = cfg.STORAGE_MAGIC)
    (hdata : byte pkt 0 &&& PKTTYPE_MASK = PKTTYPE_DATA) :
    updaterPacketProcess cfg .APP_UPDATING d pkt
      = if alldone (writeBlock 0 d pkt).2.flash = 0 then
          { err := (writeBlock 0 d pkt).1, astate := .APP_UPDATING,
            dev := (writeBlock 0 d pkt).2, boots := 0, running := false }
        else finish cfg (writeBlock 0 d pkt).2 := by
  unfold updaterPacketProcess checkMagic
  simp [hmagic, hdata]

theorem updating_data_corrupt (cfg : Config) (d : Dev) (pkt : List Nat)
    (hmagic : d.flash.magic ≠ cfg.STORAGE_MAGIC)
    (hdata : byte pkt 0 &&& PKTTYPE_MASK = PKTTYPE_DATA) :
    updaterPacketProcess cfg .APP_UPDATING d pkt
      = if alldone (writeBlock (flashEraseSectors d cfg.SECTOR_MIN cfg.SECTOR_COUNT).1
            (flashEraseSectors d cfg.SECTOR_MIN cfg.SECTOR_COUNT).2 pkt).2.flash = 0 then
          { err := (writeBlock (flashEraseSectors d cfg.SECTOR_MIN cfg.SECTOR_COUNT).1
              (flashEraseSectors d cfg.SECTOR_MIN cfg.SECTOR_COUNT).2 pkt).1,
            astate := .APP_IDLE,
            dev := (writeBlock (flashEraseSectors d cfg.SECTOR_MIN cfg.SECTOR_COUNT).1
              (flashEraseSectors d cfg.SECTOR_MIN cfg.SECTOR_COUNT).2 pkt).2,
            boots := 0, running := false }
        else finish cfg (writeBlock (flashEraseSectors d cfg.SECTOR_MIN cfg.SECTOR_COUNT).1
              (flashEraseSectors d cfg.SECTOR_MIN cfg.SECTOR_COUNT).2 pkt).2 := by
  unfold updaterPacketProcess checkMagic
  simp [hmagic, hdata]

theorem finish_match (cfg : Config) (d : Dev)
    (hh : cfg.hash (image d.flash) = d.flash.fullhash) :
    finish cfg d
      = if bootToUserApp cfg (flashProgram d (.progLocal d.flash.complete)).2.flash then
          { err := (flashProgram d (.progLocal d.flash.complete)).1, astate := .APP_UPDATED,
            dev := (flashProgram d (.progLocal d.flash.complete)).2, boots := 1,
            running := true }
        else
          { err := (flashProgram d (.progLocal d.flash.complete)).1, astate := .APP_FAIL,
            dev := (flashProgram d (.progLocal d.flash.complete)).2, boots := 1,
            running := false } := by
  unfold finish
  rw [if_pos hh]

theorem finish_mismatch (cfg : Config) (d : Dev)
    (hh : cfg.hash (image d.flash) ≠ d.flash.fullhash) :
    finish cfg d
      = { err := (flashEraseSectors d cfg.SECTOR_MIN cfg.SECTOR_COUNT).1, astate := .APP_IDLE,
          dev := (flashEraseSectors d cfg.SECTOR_MIN cfg.SECTOR_COUNT).2, boots := 0,
          running := false } := by
  unfold finish
  rw [if_neg hh]

theorem progLocal_flash (d : Dev) (w : Nat) :
    (flashProgram d (.progLocal w)).2.flash = d.flash := by
  unfold flashProgram
  by_cases he : d.script.headD 0 = 0
  · rw [flashCall_flash_ok d _ he]; rfl
  · rw [flashCall_flash_fail d _ he]

theorem finish_cases (cfg : Config) (d : Dev) :
    ((finish cfg d).dev.ops = d.ops ++ [.progLocal d.flash.complete] ∧
      (finish cfg d).dev.flash = d.flash ∧ (finish cfg d).boots = 1 ∧
      (finish cfg d).astate = (if (finish cfg d).running then .APP_UPDATED else .APP_FAIL) ∧
      cfg.hash (image d.flash) = d.flash.fullhash) ∨
    ((finish cfg d).dev.ops = d.ops ++ [.erase cfg.SECTOR_MIN cfg.SECTOR_COUNT] ∧
      (finish cfg d).boots = 0 ∧ (finish cfg d).running = false ∧
      (finish cfg d).astate = .APP_IDLE ∧
      (d.script.headD 0 = 0 → (finish cfg d).dev.flash = Flash.erased) ∧
      cfg.hash (image d.flash) ≠ d.flash.fullhash) := by
  by_cases hh : cfg.hash (image d.flash) = d.flash.fullhash
  · left
    rw [finish_match cfg d hh]
    by_cases hb : bootToUserApp cfg (flashProgram d (.progLocal d.flash.complete)).2.flash
        = true
    · rw [if_pos hb]
      exact ⟨flashCall_ops _ _, progLocal_flash _ _, rfl, rfl, hh⟩
    · rw [if_neg hb]
      exact ⟨flashCall_ops _ _, progLocal_flash _ _, rfl, rfl, hh⟩
  · right
    rw [finish_mismatch cfg d hh]
    refine ⟨flashCall_ops _ _, rfl, rfl, rfl, ?_, hh⟩
    intro he
    exact flashCall_flash_ok d _ he

theorem writeBlock_flash_free_ok (err : Int) (d : Dev) (pkt : List Nat)
    (h : d.flash.blockmap (blockOf pkt) = ALL_ONES)
    (h1 : d.script.headD 0 = 0) (h2 : d.script.tail.headD 0 = 0) :
    (writeBlock err d pkt).2.flash
      = applyOp (applyOp d.flash (.progBlockmap (blockOf pkt) 0))
          (.progPayload (blockOf pkt * BLOCK_SIZE) (payloadOf pkt)) := by
  rw [writeBlock_free err d pkt h]
  unfold flashProgram
  rw [flashCall_flash_ok _ _ (by rw [flashCall_script]; exact h2), flashCall_flash_ok _ _ h1]

theorem writeBlock_blockmap_claim (err : Int) (d : Dev) (pkt : List Nat)
    (h : d.flash.blockmap (blockOf pkt) = ALL_ONES) (h1 : d.script.headD 0 = 0) :
    (writeBlock err d pkt).2.flash.blockmap (blockOf pkt) = 0 := by
  rw [writeBlock_free err d pkt h]
  unfold flashProgram
  have hc : (flashCall d (.progBlockmap (blockOf pkt) 0)).2.flash.blockmap (blockOf pkt) = 0 := by
    rw [flashCall_flash_ok _ _ h1]
    simp [applyOp]
  by_cases h2 : (flashCall d (.progBlockmap (blockOf pkt) 0)).2.script.headD 0 = 0
  · rw [flashCall_flash_ok _ _ h2]
    exact hc
  · rw [flashCall_flash_fail _ _ h2]
    exact hc

theorem writeBlock_claims (err : Int) (d : Dev) (pkt : List Nat) (hs : d.script = []) :
    (writeBlock err d pkt).2.flash.blockmap (blockOf pkt) ≠ ALL_ONES := by
  by_cases h : d.flash.blockmap (blockOf pkt) = ALL_ONES
  · rw [writeBlock_blockmap_claim err d pkt h (by rw [hs]; rfl)]
    decide
  · rw [writeBlock_claimed err d pkt h]
    exact h

theorem writeBlock_script (err : Int) (d : Dev) (pkt : List Nat) (hs : d.script = []) :
    (writeBlock err d pkt).2.script = [] := by
  by_cases h : d.flash.blockmap (blockOf pkt) = ALL_ONES
  · rw [writeBlock_free err d pkt h]
    unfold flashProgram
    rw [flashCall_script, flashCall_script, hs]
    rfl
  · rw [writeBlock_claimed err d pkt h]
    exact hs

theorem payloadOf_length (pkt : List Nat) : (payloadOf pkt).length = BLOCK_SIZE := by
  simp [payloadOf]

theorem applyOp_progPayload_prog (f : Flash) (off : Nat) (data : List Nat) (j : Nat) :
    (applyOp f (.progPayload off data)).prog j
      = if off ≤ j ∧ j < off + data.length then f.prog j &&& data.getD (j - off) 0
        else f.prog j := rfl

theorem payloadOf_getD (pkt : List Nat) (k : Nat) (hk : k < BLOCK_SIZE) :
    (payloadOf pkt).getD k 0 = byte pkt (DATA_PAYLOAD + k) := by
  unfold payloadOf
  rw [List.getD_eq_getElem?_getD, List.getElem?_map, List.getElem?_range hk]
  rfl

theorem blockOf_zeroDataPkt : blockOf zeroDataPkt = 0 := by
  unfold blockOf byte
  rw [zeroDataPkt_getD, zeroDataPkt_getD]
  decide

/-- C9 (claim before write): a data packet processed in `APP_UPDATING` with a ledger
whose magic is good and whose block map entry for the block is all-ones makes the
driver calls for the block in this order: first the 4-byte program of
`blockmap[block]` with the word 0 (different from 0xFFFFFFFF, and the entry reads 0
once the call has succeeded), then the `BLOCK_SIZE`-byte program of the payload at
`STORAGE_PROGRAM_OFFSET + block * BLOCK_SIZE`; what follows is at most the completion
call or the erase of a hash mismatch.  The state stays `APP_UPDATING` whenever some
entry of `blockmap[0..N)` is still all-ones after the two calls. -/
theorem updating_claim_before_write (cfg : Config) (d : Dev) (pkt : List Nat)
    (hmagic : d.flash.magic = cfg.STORAGE_MAGIC)
    (hlen : d.flash.length < 4294967296)
    (hdata : byte pkt 0 &&& PKTTYPE_MASK = PKTTYPE_DATA)
    (hfree : d.flash.blockmap (blockOf pkt) = ALL_ONES) :
    (∃ rest, (updaterPacketProcess cfg .APP_UPDATING d pkt).dev.ops
        = d.ops ++ (.progBlockmap (blockOf pkt) 0
            :: .progPayload (blockOf pkt * BLOCK_SIZE) (payloadOf pkt) :: rest) ∧
      (rest = [] ∨ rest = [.progLocal d.flash.complete]
        ∨ rest = [.erase cfg.SECTOR_MIN cfg.SECTOR_COUNT])) ∧
    (0 : Nat) ≠ ALL_ONES ∧
    (payloadOf pkt).length = BLOCK_SIZE ∧
    (d.script.headD 0 = 0 → (writeBlock 0 d pkt).2.flash.blockmap (blockOf pkt) = 0) ∧
    ((∃ i, i < specN d.flash.length ∧ (writeBlock 0 d pkt).2.flash.blockmap i = ALL_ONES) →
      (updaterPacketProcess cfg .APP_UPDATING d pkt).astate = .APP_UPDATING ∧
      (updaterPacketProcess cfg .APP_UPDATING d pkt).dev = (writeBlock 0 d pkt).2) := by
  have hops := writeBlock_ops_free 0 d pkt hfree
  have hhdr := writeBlock_header 0 d pkt
  refine ⟨?_, by decide, payloadOf_length pkt, writeBlock_blockmap_claim 0 d pkt hfree, ?_⟩
  · rw [updating_data_ok cfg d pkt hmagic hdata]
    by_cases ha : alldone (writeBlock 0 d pkt).2.flash = 0
    · rw [if_pos ha]
      exact ⟨[], by simpa using hops, Or.inl rfl⟩
    · rw [if_neg ha]
      rcases finish_cases cfg (writeBlock 0 d pkt).2 with hc | hc
      · refine ⟨[.progLocal d.flash.complete], ?_, Or.inr (Or.inl rfl)⟩
        rw [hc.1, hops, hhdr.2.2.2]
        simp
      · refine ⟨[.erase cfg.SECTOR_MIN cfg.SECTOR_COUNT], ?_, Or.inr (Or.inr rfl)⟩
        rw [hc.1, hops]
        simp
  · rintro ⟨i, hi, hb⟩
    have ha : alldone (writeBlock 0 d pkt).2.flash = 0 := by
      rw [alldone_eq_zero_iff]
      refine ⟨i, ?_, hb⟩
      rw [hhdr.2.1]
      exact Nat.lt_of_lt_of_le hi (specN_le_scanBound _ hlen)
    rw [updating_data_ok cfg d pkt hmagic hdata, if_pos ha]
    exact ⟨rfl, rfl⟩

/-- Witness for C9: a fresh ledger for a 512-byte image and the data packet of
block 0. -/
theorem updating_claim_before_write_witness :
    (∃ rest, (updaterPacketProcess sampleCfg .APP_UPDATING
          (Dev.fresh (sampleLedger 512 0)) zeroDataPkt).dev.ops
        = (Dev.fresh (sampleLedger 512 0)).ops ++ (.progBlockmap (blockOf zeroDataPkt) 0
            :: .progPayload (blockOf zeroDataPkt * BLOCK_SIZE) (payloadOf zeroDataPkt) :: rest) ∧
      (rest = [] ∨ rest = [.progLocal (Dev.fresh (sampleLedger 512 0)).flash.complete]
        ∨ rest = [.erase sampleCfg.SECTOR_MIN sampleCfg.SECTOR_COUNT])) ∧
    (updaterPacketProcess sampleCfg .APP_UPDATING
      (Dev.fresh (sampleLedger 512 0)) zeroDataPkt).astate = .APP_UPDATING := by
  have h := updating_claim_before_write sampleCfg (Dev.fresh (sampleLedger 512 0)) zeroDataPkt
    rfl (by decide) zeroDataPkt_isData rfl
  refine ⟨h.1, (h.2.2.2.2 ⟨1, by decide, ?_⟩).1⟩
  rw [writeBlock_flash_free_ok 0 (Dev.fresh (sampleLedger 512 0)) zeroDataPkt rfl rfl rfl,
    blockOf_zeroDataPkt]
  rfl

/-! ### A corrupt ledger in `APP_UPDATING` -/

theorem updating_corrupt_data_ops (cfg : Config) (d : Dev) (pkt : List Nat)
    (hmagic : d.flash.magic ≠ cfg.STORAGE_MAGIC)
    (hdata : byte pkt 0 &&& PKTTYPE_MASK = PKTTYPE_DATA)
    (herase : d.script.headD 0 = 0) :
    ∃ rest, (updaterPacketProcess cfg .APP_UPDATING d pkt).dev.ops
      = d.ops ++ (.erase cfg.SECTOR_MIN cfg.SECTOR_COUNT :: .progBlockmap (blockOf pkt) 0
          :: .progPayload (blockOf pkt * BLOCK_SIZE) (payloadOf pkt) :: rest) := by
  have hfl : (flashEraseSectors d cfg.SECTOR_MIN cfg.SECTOR_COUNT).2.flash = Flash.erased :=
    flashCall_flash_ok d _ herase
  have hfree : (flashEraseSectors d cfg.SECTOR_MIN cfg.SECTOR_COUNT).2.flash.blockmap
      (blockOf pkt) = ALL_ONES := by rw [hfl]; rfl
  have hops := writeBlock_ops_free (flashEraseSectors d cfg.SECTOR_MIN cfg.SECTOR_COUNT).1
    (flashEraseSectors d cfg.SECTOR_MIN cfg.SECTOR_COUNT).2 pkt hfree
  have he : (flashEraseSectors d cfg.SECTOR_MIN cfg.SECTOR_COUNT).2.ops
      = d.ops ++ [.erase cfg.SECTOR_MIN cfg.SECTOR_COUNT] := flashCall_ops _ _
  rw [he] at hops
  rw [updating_data_corrupt cfg d pkt hmagic hdata]
  by_cases ha : alldone (writeBlock (flashEraseSectors d cfg.SECTOR_MIN cfg.SECTOR_COUNT).1
      (flashEraseSectors d cfg.SECTOR_MIN cfg.SECTOR_COUNT).2 pkt).2.flash = 0
  · rw [if_pos ha]
    exact ⟨[], by simpa using hops⟩
  · rw [if_neg ha]
    rcases finish_cases cfg (writeBlock (flashEraseSectors d cfg.SECTOR_MIN cfg.SECTOR_COUNT).1
      (flashEraseSectors d cfg.SECTOR_MIN cfg.SECTOR_COUNT).2 pkt).2 with hc | hc
    · refine ⟨[.progLocal (writeBlock (flashEraseSectors d cfg.SECTOR_MIN cfg.SECTOR_COUNT).1
        (flashEraseSectors d cfg.SECTOR_MIN cfg.SECTOR_COUNT).2 pkt).2.flash.complete], ?_⟩
      rw [hc.1, hops]; simp
    · exact ⟨[.erase cfg.SECTOR_MIN cfg.SECTOR_COUNT], by rw [hc.1, hops]; simp⟩

/-- C10 fails on the code for data packets: with an erased (hence corrupt) ledger in
`APP_UPDATING`, the data packet of block 0 makes the driver erase the managed sectors
and then, the magic check having no `break`, claim `blockmap[0]` and program the
payload; the call ends in `APP_IDLE` with `blockmap[0] = 0` and the first payload
byte programmed, so the flash is not left erased. -/
theorem corrupt_ledger_data_falls_through :
    Flash.erased.magic ≠ sampleCfg.STORAGE_MAGIC ∧
    (updaterPacketProcess sampleCfg .APP_UPDATING (Dev.fresh Flash.erased) zeroDataPkt).dev.ops
      = [.erase 22 10, .progBlockmap 0 0, .progPayload 0 (payloadOf zeroDataPkt)] ∧
    (updaterPacketProcess sampleCfg .APP_UPDATING
      (Dev.fresh Flash.erased) zeroDataPkt).dev.flash.blockmap 0 = 0 ∧
    (updaterPacketProcess sampleCfg .APP_UPDATING
      (Dev.fresh Flash.erased) zeroDataPkt).dev.flash.prog 0 = 0 ∧
    (updaterPacketProcess sampleCfg .APP_UPDATING
      (Dev.fresh Flash.erased) zeroDataPkt).astate = .APP_IDLE := by
  have hm : Flash.erased.magic ≠ sampleCfg.STORAGE_MAGIC := by decide
  have hw := writeBlock_flash_free_ok
    (flashEraseSectors (Dev.fresh Flash.erased) 22 10).1
    (flashEraseSectors (Dev.fresh Flash.erased) 22 10).2 zeroDataPkt rfl rfl rfl
  have hwo := writeBlock_ops_free
    (flashEraseSectors (Dev.fresh Flash.erased) 22 10).1
    (flashEraseSectors (Dev.fresh Flash.erased) 22 10).2 zeroDataPkt rfl
  rw [blockOf_zeroDataPkt] at hw hwo
  have ha : alldone (writeBlock (flashEraseSectors (Dev.fresh Flash.erased) 22 10).1
      (flashEraseSectors (Dev.fresh Flash.erased) 22 10).2 zeroDataPkt).2.flash = 0 := by
    rw [alldone_eq_zero_iff, hw]
    exact ⟨1, by decide, rfl⟩
  have hrun := updating_data_corrupt sampleCfg (Dev.fresh Flash.erased) zeroDataPkt hm
    zeroDataPkt_isData
  rw [show sampleCfg.SECTOR_MIN = 22 from rfl, show sampleCfg.SECTOR_COUNT = 10 from rfl,
    if_pos ha] at hrun
  rw [hrun]
  refine ⟨hm, hwo, ?_, ?_, rfl⟩
  · show (writeBlock _ _ zeroDataPkt).2.flash.blockmap 0 = 0
    rw [hw]; rfl
  · show (writeBlock _ _ zeroDataPkt).2.flash.prog 0 = 0
    rw [hw, applyOp_progPayload_prog, payloadOf_length,
      if_pos ⟨by decide, by decide⟩, payloadOf_getD _ _ (by decide)]
    show _ &&& byte zeroDataPkt (DATA_PAYLOAD + 0) = 0
    unfold byte
    rw [zeroDataPkt_getD, Nat.zero_mod, Nat.and_zero]

/-! ### The same data packet twice -/

theorem process_dev_of_ne_updating (cfg : Config) (st : app_state) (d : Dev) (pkt : List Nat)
    (hst : st ≠ .APP_UPDATING) (hdata : byte pkt 0 &&& PKTTYPE_MASK = PKTTYPE_DATA) :
    (updaterPacketProcess cfg st d pkt).dev = d := by
  have hn := isData_not_ctrl pkt hdata
  cases st with
  | APP_IDLE =>
    unfold updaterPacketProcess
    simp only [hn, ne_eq, not_false_eq_true, if_true]
  | APP_GOT_ID => rfl
  | APP_UPDATING => exact absurd rfl hst
  | APP_UPDATED =>
    unfold updaterPacketProcess
    by_cases hb : bootToUserApp cfg d.flash = true
    · rw [if_pos hb]
    · rw [if_neg hb]
  | APP_FAIL => rfl

theorem finish_astate_ne_updating (cfg : Config) (d : Dev) :
    (finish cfg d).astate ≠ .APP_UPDATING := by
  rcases finish_cases cfg d with hc | hc
  · rw [hc.2.2.2.1]
    by_cases hr : (finish cfg d).running = true
    · rw [if_pos hr]; decide
    · rw [if_neg hr]; decide
  · rw [hc.2.2.2.1]; decide

theorem data_packet_twice_dev (cfg : Config) (d : Dev) (pkt : List Nat)
    (hs : d.script = []) (hdata : byte pkt 0 &&& PKTTYPE_MASK = PKTTYPE_DATA) :
    (updaterPacketProcess cfg (updaterPacketProcess cfg .APP_UPDATING d pkt).astate
        (updaterPacketProcess cfg .APP_UPDATING d pkt).dev pkt).dev
      = (updaterPacketProcess cfg .APP_UPDATING d pkt).dev := by
  by_cases hmagic : d.flash.magic = cfg.STORAGE_MAGIC
  · by_cases ha : alldone (writeBlock 0 d pkt).2.flash = 0
    · have hrun : updaterPacketProcess cfg .APP_UPDATING d pkt
          = { err := (writeBlock 0 d pkt).1, astate := .APP_UPDATING,
              dev := (writeBlock 0 d pkt).2, boots := 0, running := false } := by
        rw [updating_data_ok cfg d pkt hmagic hdata, if_pos ha]
      rw [hrun]
      show (updaterPacketProcess cfg .APP_UPDATING (writeBlock 0 d pkt).2 pkt).dev
        = (writeBlock 0 d pkt).2
      have hm2 : (writeBlock 0 d pkt).2.flash.magic = cfg.STORAGE_MAGIC := by
        rw [(writeBlock_header 0 d pkt).1]; exact hmagic
      have hw2 : writeBlock 0 (writeBlock 0 d pkt).2 pkt = (0, (writeBlock 0 d pkt).2) :=
        writeBlock_claimed 0 _ pkt (writeBlock_claims 0 d pkt hs)
      rw [updating_data_ok cfg _ pkt hm2 hdata, hw2, if_pos ha]
    · have hrun : updaterPacketProcess cfg .APP_UPDATING d pkt
          = finish cfg (writeBlock 0 d pkt).2 := by
        rw [updating_data_ok cfg d pkt hmagic hdata, if_neg ha]
      rw [hrun]
      exact process_dev_of_ne_updating cfg _ _ pkt (finish_astate_ne_updating cfg _) hdata
  · have hrun := updating_data_corrupt cfg d pkt hmagic hdata
    by_cases ha : alldone (writeBlock (flashEraseSectors d cfg.SECTOR_MIN cfg.SECTOR_COUNT).1
        (flashEraseSectors d cfg.SECTOR_MIN cfg.SECTOR_COUNT).2 pkt).2.flash = 0
    · rw [if_pos ha] at hrun
      rw [hrun]
      exact process_dev_of_ne_updating cfg _ _ pkt (fun h => by cases h) hdata
    · rw [if_neg ha] at hrun
      rw [hrun]
      exact process_dev_of_ne_updating cfg _ _ pkt (finish_astate_ne_updating cfg _) hdata

/-- C2 (P1, idempotent redundant blocks): for every flash state and every data packet,
with the driver calls succeeding, when `updaterPacketProcess` is called in
`APP_UPDATING` with the packet and then called again with the same packet, the flash
contents after the second call are those after the first, and the second call makes
no driver call at all (the log of calls is the one left by the first call), in
particular no program of the payload. -/
theorem data_packet_twice (cfg : Config) (d : Dev) (pkt : List Nat)
    (hs : d.script = []) (hdata : byte pkt 0 &&& PKTTYPE_MASK = PKTTYPE_DATA) :
    (updaterPacketProcess cfg (updaterPacketProcess cfg .APP_UPDATING d pkt).astate
        (updaterPacketProcess cfg .APP_UPDATING d pkt).dev pkt).dev.flash
      = (updaterPacketProcess cfg .APP_UPDATING d pkt).dev.flash ∧
    (updaterPacketProcess cfg (updaterPacketProcess cfg .APP_UPDATING d pkt).astate
        (updaterPacketProcess cfg .APP_UPDATING d pkt).dev pkt).dev.ops
      = (updaterPacketProcess cfg .APP_UPDATING d pkt).dev.ops := by
  rw [data_packet_twice_dev cfg d pkt hs hdata]
  exact ⟨rfl, rfl⟩

/-- Witness for C2: a fresh ledger for a 512-byte image and the data packet of block 0,
whose first call claims and programs the block. -/
theorem data_packet_twice_witness :
    (Dev.fresh (sampleLedger 512 0)).script = [] ∧
    byte zeroDataPkt 0 &&& PKTTYPE_MASK = PKTTYPE_DATA ∧
    (updaterPacketProcess sampleCfg
        (updaterPacketProcess sampleCfg .APP_UPDATING
          (Dev.fresh (sampleLedger 512 0)) zeroDataPkt).astate
        (updaterPacketProcess sampleCfg .APP_UPDATING
          (Dev.fresh (sampleLedger 512 0)) zeroDataPkt).dev zeroDataPkt).dev.ops
      = (updaterPacketProcess sampleCfg .APP_UPDATING
          (Dev.fresh (sampleLedger 512 0)) zeroDataPkt).dev.ops :=
  ⟨rfl, zeroDataPkt_isData,
   (data_packet_twice sampleCfg (Dev.fresh (sampleLedger 512 0)) zeroDataPkt rfl
      zeroDataPkt_isData).2⟩

/-! ### Completion and rollback -/

theorem alldone_ne_zero_of_claimed (f : Flash) (h1 : 1 ≤ f.length) (h2 : f.length < 4294967296)
    (hall : ∀ i, i < specN f.length → f.blockmap i ≠ ALL_ONES) : alldone f ≠ 0 := by
  rw [Ne, alldone_eq_zero_iff, scanBound_eq_specN _ h1 h2]
  rintro ⟨i, hi, hb⟩
  exact hall i hi hb

theorem writeBlock_ops_cases (err : Int) (d : Dev) (pkt : List Nat) :
    ∃ pre, (pre = [] ∨ pre = [.progBlockmap (blockOf pkt) 0,
        .progPayload (blockOf pkt * BLOCK_SIZE) (payloadOf pkt)]) ∧
      (writeBlock err d pkt).2.ops = d.ops ++ pre := by
  by_cases h : d.flash.blockmap (blockOf pkt) = ALL_ONES
  · exact ⟨_, Or.inr rfl, writeBlock_ops_free err d pkt h⟩
  · refine ⟨[], Or.inl rfl, ?_⟩
    rw [writeBlock_claimed err d pkt h]
    simp

theorem zeroDataPkt_writes_prog0 (f : Flash) :
    (applyOp (applyOp f (.progBlockmap 0 0))
      (.progPayload (0 * BLOCK_SIZE) (payloadOf zeroDataPkt))).prog 0 = 0 := by
  rw [applyOp_progPayload_prog, payloadOf_length,
    if_pos ⟨by decide, by decide⟩, payloadOf_getD _ _ (by decide)]
  show _ &&& byte zeroDataPkt (DATA_PAYLOAD + 0) = 0
  unfold byte
  rw [zeroDataPkt_getD, Nat.zero_mod, Nat.and_zero]

/-- C4 as stated fails for an image length of 0: there `N = ceil(0 / BLOCK_SIZE) = 0`,
so every entry of `blockmap[0..N)` is claimed, and the hash of the empty image (7)
differs from the fullhash of the ledger (0); but the scan of the code runs over
`((0 - 1) / 256) + 1 = 2^24` entries, finds `blockmap[1]` all-ones, and the call ends
in `APP_UPDATING` with no erase. -/
theorem hash_mismatch_no_rollback_at_length_zero :
    (sampleLedger 0 0).magic = sampleCfg.STORAGE_MAGIC ∧
    (sampleLedger 0 0).version = sampleCfg.STORAGE_VERSION ∧
    (∀ i, i < specN (sampleLedger 0 0).length →
      (writeBlock 0 (Dev.fresh (sampleLedger 0 0)) zeroDataPkt).2.flash.blockmap i
        ≠ ALL_ONES) ∧
    sampleCfg.hash (image (writeBlock 0 (Dev.fresh (sampleLedger 0 0)) zeroDataPkt).2.flash)
      ≠ (sampleLedger 0 0).fullhash ∧
    (updaterPacketProcess sampleCfg .APP_UPDATING
      (Dev.fresh (sampleLedger 0 0)) zeroDataPkt).astate = .APP_UPDATING ∧
    (updaterPacketProcess sampleCfg .APP_UPDATING
      (Dev.fresh (sampleLedger 0 0)) zeroDataPkt).dev.ops
      = [.progBlockmap 0 0, .progPayload 0 (payloadOf zeroDataPkt)] := by
  have hw := writeBlock_flash_free_ok 0 (Dev.fresh (sampleLedger 0 0)) zeroDataPkt rfl rfl rfl
  have hwo := writeBlock_ops_free 0 (Dev.fresh (sampleLedger 0 0)) zeroDataPkt rfl
  rw [blockOf_zeroDataPkt] at hw hwo
  have ha : alldone (writeBlock 0 (Dev.fresh (sampleLedger 0 0)) zeroDataPkt).2.flash = 0 := by
    rw [alldone_eq_zero_iff, hw]
    exact ⟨1, by decide, rfl⟩
  have hrun := updating_data_ok sampleCfg (Dev.fresh (sampleLedger 0 0)) zeroDataPkt rfl
    zeroDataPkt_isData
  rw [if_pos ha] at hrun
  rw [hrun]
  refine ⟨rfl, rfl, ?_, ?_, rfl, hwo⟩
  · intro i hi
    have h0 : specN (sampleLedger 0 0).length = 0 := by decide
    rw [h0] at hi
    exact absurd hi (Nat.not_lt_zero i)
  · rw [hw]
    decide

/-- C4 (P6, corruption rollback), amended to images of at least one byte: in
`APP_UPDATING` with a ledger whose magic is good and whose length is at least 1,
whenever processing a data packet leaves every entry of `blockmap[0..N)` claimed and
the hash over the first `length` bytes of the program region differs from the
fullhash of the ledger, the call ends with the erase of the managed sectors
`(SECTOR_MIN, SECTOR_COUNT)`, preceded at most by the claim and the program of the
block, makes no completion call and no call of `bootToUserApp`, and the next state is
`APP_IDLE`; when the erase succeeds the flash is back in the erased state. -/
theorem updating_hash_mismatch_rollback (cfg : Config) (d : Dev) (pkt : List Nat)
    (hmagic : d.flash.magic = cfg.STORAGE_MAGIC)
    (hlen1 : 1 ≤ d.flash.length) (hlen : d.flash.length < 4294967296)
    (hdata : byte pkt 0 &&& PKTTYPE_MASK = PKTTYPE_DATA)
    (hall : ∀ i, i < specN d.flash.length →
      (writeBlock 0 d pkt).2.flash.blockmap i ≠ ALL_ONES)
    (hhash : cfg.hash (image (writeBlock 0 d pkt).2.flash) ≠ d.flash.fullhash) :
    (∃ pre, (pre = [] ∨ pre = [.progBlockmap (blockOf pkt) 0,
        .progPayload (blockOf pkt * BLOCK_SIZE) (payloadOf pkt)]) ∧
      (updaterPacketProcess cfg .APP_UPDATING d pkt).dev.ops
        = d.ops ++ pre ++ [.erase cfg.SECTOR_MIN cfg.SECTOR_COUNT]) ∧
    (updaterPacketProcess cfg .APP_UPDATING d pkt).boots = 0 ∧
    (updaterPacketProcess cfg .APP_UPDATING d pkt).running = false ∧
    (updaterPacketProcess cfg .APP_UPDATING d pkt).astate = .APP_IDLE ∧
    ((writeBlock 0 d pkt).2.script.headD 0 = 0 →
      (updaterPacketProcess cfg .APP_UPDATING d pkt).dev.flash = Flash.erased) := by
  have hhdr := writeBlock_header 0 d pkt
  have ha : alldone (writeBlock 0 d pkt).2.flash ≠ 0 :=
    alldone_ne_zero_of_claimed _ (by rw [hhdr.2.1]; exact hlen1) (by rw [hhdr.2.1]; exact hlen)
      (by rw [hhdr.2.1]; exact hall)
  have hh : cfg.hash (image (writeBlock 0 d pkt).2.flash) ≠ (writeBlock 0 d pkt).2.flash.fullhash := by
    rw [hhdr.2.2.1]; exact hhash
  rw [updating_data_ok cfg d pkt hmagic hdata, if_neg ha, finish_mismatch cfg _ hh]
  obtain ⟨pre, hpre, hops⟩ := writeBlock_ops_cases 0 d pkt
  refine ⟨⟨pre, hpre, ?_⟩, rfl, rfl, rfl, ?_⟩
  · show (flashEraseSectors _ _ _).2.ops = _
    unfold flashEraseSectors
    rw [flashCall_ops, hops]
  · intro he
    exact flashCall_flash_ok _ _ he

/-- Witness for C4, amended: a fresh ledger for a 1-byte image with fullhash 0 and the
data packet of block 0. -/
theorem updating_hash_mismatch_rollback_witness :
    (updaterPacketProcess sampleCfg .APP_UPDATING
      (Dev.fresh (sampleLedger 1 0)) zeroDataPkt).astate = .APP_IDLE ∧
    (updaterPacketProcess sampleCfg .APP_UPDATING
      (Dev.fresh (sampleLedger 1 0)) zeroDataPkt).dev.flash = Flash.erased := by
  have hw := writeBlock_flash_free_ok 0 (Dev.fresh (sampleLedger 1 0)) zeroDataPkt rfl rfl rfl
  rw [blockOf_zeroDataPkt] at hw
  have hs := writeBlock_script 0 (Dev.fresh (sampleLedger 1 0)) zeroDataPkt rfl
  have h := updating_hash_mismatch_rollback sampleCfg (Dev.fresh (sampleLedger 1 0)) zeroDataPkt
    rfl (by decide) (by decide) zeroDataPkt_isData
    (by
      intro i hi
      have hi0 : i = 0 := by
        have : specN (Dev.fresh (sampleLedger 1 0)).flash.length = 1 := by decide
        omega
      rw [hi0, hw]
      decide)
    (by
      rw [hw]
      have hp := zeroDataPkt_writes_prog0 (Dev.fresh (sampleLedger 1 0)).flash
      show sampleHash (List.map _ (List.range 1)) ≠ 0
      rw [show List.range 1 = [0] from rfl, List.map_cons, hp]
      decide)
  exact ⟨h.2.2.2.1, h.2.2.2.2 (by rw [hs]; rfl)⟩

/-- C5 as stated fails for an image length of 0: the ledger is not corrupt, every
entry of `blockmap[0..N)` with `N = ceil(0 / BLOCK_SIZE) = 0` is claimed, `complete`
is all-ones, the hash of the empty image equals the fullhash, and block 0 of the data
packet is already claimed; but the scan of the code runs over `2^24` entries, finds
`blockmap[1]` all-ones, and the call stays in `APP_UPDATING` without calling
`bootToUserApp`. -/
theorem redundant_packet_no_completion_at_length_zero :
    (claimedLedger 0 7).magic = sampleCfg.STORAGE_MAGIC ∧
    (claimedLedger 0 7).version = sampleCfg.STORAGE_VERSION ∧
    (∀ i, i < specN (claimedLedger 0 7).length → (claimedLedger 0 7).blockmap i ≠ ALL_ONES) ∧
    (claimedLedger 0 7).complete = ALL_ONES ∧
    sampleCfg.hash (image (claimedLedger 0 7)) = (claimedLedger 0 7).fullhash ∧
    (claimedLedger 0 7).blockmap (blockOf zeroDataPkt) ≠ ALL_ONES ∧
    (updaterPacketProcess sampleCfg .APP_UPDATING
      (Dev.fresh (claimedLedger 0 7)) zeroDataPkt).astate = .APP_UPDATING ∧
    (updaterPacketProcess sampleCfg .APP_UPDATING
      (Dev.fresh (claimedLedger 0 7)) zeroDataPkt).boots = 0 := by
  have hc : (Dev.fresh (claimedLedger 0 7)).flash.blockmap (blockOf zeroDataPkt) ≠ ALL_ONES := by
    rw [blockOf_zeroDataPkt]; decide
  have hw := writeBlock_claimed 0 (Dev.fresh (claimedLedger 0 7)) zeroDataPkt hc
  have ha : alldone (Dev.fresh (claimedLedger 0 7)).flash = 0 := by
    rw [alldone_eq_zero_iff]
    exact ⟨1, by decide, rfl⟩
  have hrun := updating_data_ok sampleCfg (Dev.fresh (claimedLedger 0 7)) zeroDataPkt rfl
    zeroDataPkt_isData
  rw [hw, if_pos ha] at hrun
  rw [hrun]
  refine ⟨rfl, rfl, ?_, rfl, by decide, hc, rfl, rfl⟩
  intro i hi
  have h0 : specN (claimedLedger 0 7).length = 0 := by decide
  rw [h0] at hi
  exact absurd hi (Nat.not_lt_zero i)

/-- C5 (P5, completion is re-evaluated on redundant packets), amended to images of at
least one byte: in `APP_UPDATING` with a ledger whose magic is good, whose length is at
least 1, in which every entry of `blockmap[0..N)` is claimed and the hash of the first
`length` bytes of the program region equals the fullhash, a data packet whose block is
already claimed programs no payload (the only driver call is the completion call, and
the flash contents are unchanged), `bootToUserApp` is called once, and the state is
`APP_UPDATED` when control goes to the application and `APP_FAIL` when the handoff
returns. -/
theorem updating_redundant_completes (cfg : Config) (d : Dev) (pkt : List Nat)
    (hmagic : d.flash.magic = cfg.STORAGE_MAGIC)
    (hlen1 : 1 ≤ d.flash.length) (hlen : d.flash.length < 4294967296)
    (hdata : byte pkt 0 &&& PKTTYPE_MASK = PKTTYPE_DATA)
    (hclaimed : d.flash.blockmap (blockOf pkt) ≠ ALL_ONES)
    (hall : ∀ i, i < specN d.flash.length → d.flash.blockmap i ≠ ALL_ONES)
    (hhash : cfg.hash (image d.flash) = d.flash.fullhash) :
    (updaterPacketProcess cfg .APP_UPDATING d pkt).dev.ops
      = d.ops ++ [.progLocal d.flash.complete] ∧
    (updaterPacketProcess cfg .APP_UPDATING d pkt).dev.flash = d.flash ∧
    (updaterPacketProcess cfg .APP_UPDATING d pkt).boots = 1 ∧
    (updaterPacketProcess cfg .APP_UPDATING d pkt).running = bootToUserApp cfg d.flash ∧
    (updaterPacketProcess cfg .APP_UPDATING d pkt).astate
      = (if bootToUserApp cfg d.flash then .APP_UPDATED else .APP_FAIL) := by
  have ha : alldone d.flash ≠ 0 := alldone_ne_zero_of_claimed _ hlen1 hlen hall
  rw [updating_data_ok cfg d pkt hmagic hdata, writeBlock_claimed 0 d pkt hclaimed,
    if_neg ha, finish_match cfg d hhash, progLocal_flash]
  by_cases hb : bootToUserApp cfg d.flash = true
  · rw [if_pos hb, if_pos hb]
    exact ⟨flashCall_ops _ _, progLocal_flash _ _, rfl, hb.symm, rfl⟩
  · rw [if_neg hb, if_neg hb]
    refine ⟨flashCall_ops _ _, progLocal_flash _ _, rfl, ?_, rfl⟩
    cases hbb : bootToUserApp cfg d.flash with
    | false => rfl
    | true => exact absurd hbb hb

/-- Witness for C5, amended: a ledger for a 1-byte image whose only block is claimed
and whose program region hashes to the fullhash 472, and the data packet of
block 0. -/
theorem updating_redundant_completes_witness :
    (updaterPacketProcess sampleCfg .APP_UPDATING
      (Dev.fresh (claimedLedger 1 472)) zeroDataPkt).boots = 1 ∧
    (updaterPacketProcess sampleCfg .APP_UPDATING
      (Dev.fresh (claimedLedger 1 472)) zeroDataPkt).astate = .APP_FAIL := by
  have h := updating_redundant_completes sampleCfg (Dev.fresh (claimedLedger 1 472))
    zeroDataPkt rfl (by decide) (by decide) zeroDataPkt_isData
    (by rw [blockOf_zeroDataPkt]; decide)
    (by
      intro i hi
      have hi0 : i = 0 := by
        have : specN (Dev.fresh (claimedLedger 1 472)).flash.length = 1 := by decide
        omega
      rw [hi0]
      decide)
    (by decide)
  exact ⟨h.2.2.1, h.2.2.2.2⟩

/-! ### The completion flag -/

theorem flashCall_complete (d : Dev) (op : FlashOp) (h : d.flash.complete = ALL_ONES) :
    (flashCall d op).2.flash.complete = ALL_ONES := by
  by_cases he : d.script.headD 0 = 0
  · rw [flashCall_flash_ok d op he]
    cases op with
    | erase a b => rfl
    | progHeader p => exact h
    | progBlockmap b w => exact h
    | progPayload o l => exact h
    | progLocal w => exact h
  · rw [flashCall_flash_fail d op he]
    exact h

theorem finish_complete (cfg : Config) (d : Dev) (h : d.flash.complete = ALL_ONES) :
    (finish cfg d).dev.flash.complete = ALL_ONES := by
  by_cases hh : cfg.hash (image d.flash) = d.flash.fullhash
  · rw [finish_match cfg d hh]
    by_cases hb : bootToUserApp cfg (flashProgram d (.progLocal d.flash.complete)).2.flash
        = true
    · rw [if_pos hb]; exact flashCall_complete d _ h
    · rw [if_neg hb]; exact flashCall_complete d _ h
  · rw [finish_mismatch cfg d hh]
    exact flashCall_complete d _ h

theorem updaterPacketProcess_complete (cfg : Config) (st : app_state) (d : Dev)
    (pkt : List Nat) (h : d.flash.complete = ALL_ONES) :
    (updaterPacketProcess cfg st d pkt).dev.flash.complete = ALL_ONES := by
  cases st with
  | APP_IDLE =>
    unfold updaterPacketProcess
    by_cases hc : byte pkt 0 &&& PKTTYPE_MASK ≠ PKTTYPE_CTRL
    · rw [if_pos hc]; exact h
    · rw [if_neg hc]
      by_cases hg : guidMatch d.flash pkt = true
      · rw [if_pos hg, if_pos h]; exact h
      · rw [if_neg hg]
        exact flashCall_complete _ _ (flashCall_complete d _ h)
  | APP_GOT_ID => exact h
  | APP_UPDATING =>
    have hck : (checkMagic cfg d).2.2.flash.complete = ALL_ONES := by
      unfold checkMagic
      by_cases hm : d.flash.magic ≠ cfg.STORAGE_MAGIC
      · rw [if_pos hm]; exact flashCall_complete d _ h
      · rw [if_neg hm]; exact h
    have hw : (writeBlock (checkMagic cfg d).1 (checkMagic cfg d).2.2 pkt).2.flash.complete
        = ALL_ONES := by
      rw [(writeBlock_header _ _ pkt).2.2.2]; exact hck
    unfold updaterPacketProcess
    by_cases hdt : byte pkt 0 &&& PKTTYPE_MASK ≠ PKTTYPE_DATA
    · rw [if_pos hdt]; exact hck
    · rw [if_neg hdt]
      by_cases ha : alldone (writeBlock (checkMagic cfg d).1 (checkMagic cfg d).2.2 pkt).2.flash = 0
      · rw [if_pos ha]; exact hw
      · rw [if_neg ha]; exact finish_complete cfg _ hw
  | APP_UPDATED =>
    unfold updaterPacketProcess
    by_cases hb : bootToUserApp cfg d.flash = true
    · rw [if_pos hb]; exact h
    · rw [if_neg hb]; exact h
  | APP_FAIL => exact h

theorem runPackets_complete (cfg : Config) (pkts : List (List Nat)) (s : Session)
    (h : s.dev.flash.complete = ALL_ONES) :
    (runPackets cfg s pkts).dev.flash.complete = ALL_ONES := by
  induction pkts generalizing s with
  | nil => exact h
  | cons p ps ih =>
    unfold runPackets
    rw [List.foldl_cons]
    apply ih
    unfold Session.feed
    by_cases hr : s.running = true
    · rw [if_pos hr]; exact h
    · rw [if_neg hr]; exact updaterPacketProcess_complete cfg _ _ p h

set_option maxRecDepth 100000 in
/-- C1 fails on the code: starting in `APP_IDLE` on an erased ledger with every driver
call succeeding, the control packet of the valid 8-byte image `appImage` followed by
its single data block ends with `bootToUserApp` called and control handed to the
application (`APP_UPDATED`), but the completion call is
`flashProgram(&storageHdr->complete, &dummy, 4)`, whose destination is the local
`dummy`, so the field `complete` in flash is still 0xFFFFFFFF. -/
theorem complete_flag_never_programmed :
    sampleCfg.hash appImage = leDecode appCtrlPkt CTRL_FULLHASH ∧
    leDecode appCtrlPkt CTRL_LENGTH = appImage.length ∧
    (runPackets sampleCfg (Session.start Flash.erased) [appCtrlPkt, appDataPkt]).astate
      = .APP_UPDATED ∧
    (runPackets sampleCfg (Session.start Flash.erased) [appCtrlPkt, appDataPkt]).boots = 1 ∧
    (runPackets sampleCfg (Session.start Flash.erased) [appCtrlPkt, appDataPkt]).running
      = true ∧
    (runPackets sampleCfg (Session.start Flash.erased) [appCtrlPkt, appDataPkt]).dev.ops
      = [.erase 22 10, .progHeader (protoOf sampleCfg appCtrlPkt), .progBlockmap 0 0,
         .progPayload 0 (payloadOf appDataPkt), .progLocal ALL_ONES] ∧
    (runPackets sampleCfg (Session.start Flash.erased)
      [appCtrlPkt, appDataPkt]).dev.flash.complete = ALL_ONES := by
  decide

/-! ### Convergence of a transfer, whatever the order of the blocks -/

theorem feed_of_not_running (cfg : Config) (s : Session) (p : List Nat)
    (h : s.running = false) :
    Session.feed cfg s p
      = { astate := (updaterPacketProcess cfg s.astate s.dev p).astate
          dev := (updaterPacketProcess cfg s.astate s.dev p).dev
          boots := s.boots + (updaterPacketProcess cfg s.astate s.dev p).boots
          running := (updaterPacketProcess cfg s.astate s.dev p).running } := by
  unfold Session.feed
  rw [if_neg (by rw [h]; decide)]

theorem mid_write (cfg : Config) (L H : Nat) (img : Nat → Nat) (done : List Nat)
    (s : Session) (p : List Nat) (hI : MidTransfer cfg L H img done s)
    (hp : carries img p) (hb : blockOf p ∉ done) :
    (writeBlock 0 s.dev p).2.script = [] ∧
    (writeBlock 0 s.dev p).2.flash.magic = cfg.STORAGE_MAGIC ∧
    (writeBlock 0 s.dev p).2.flash.length = L ∧
    (writeBlock 0 s.dev p).2.flash.fullhash = H ∧
    (∀ i, (writeBlock 0 s.dev p).2.flash.blockmap i
      = if i ∈ blockOf p :: done then 0 else ALL_ONES) ∧
    (∀ j, (writeBlock 0 s.dev p).2.flash.prog j
      = if j / BLOCK_SIZE ∈ blockOf p :: done then img j else 0xFF) := by
  have hfree : s.dev.flash.blockmap (blockOf p) = ALL_ONES := by
    rw [hI.blockmap, if_neg hb]
  have hhdr := writeBlock_header 0 s.dev p
  have hw := writeBlock_flash_free_ok 0 s.dev p hfree (by rw [hI.script]; rfl)
    (by rw [hI.script]; rfl)
  refine ⟨writeBlock_script 0 s.dev p hI.script, hhdr.1.trans hI.magic,
    hhdr.2.1.trans hI.length, hhdr.2.2.1.trans hI.fullhash, ?_, ?_⟩
  · intro i
    rw [hw]
    show (if i = blockOf p then s.dev.flash.blockmap i &&& 0 else s.dev.flash.blockmap i) = _
    by_cases hi : i = blockOf p
    · rw [if_pos hi, Nat.and_zero, if_pos (by rw [hi]; exact List.mem_cons_self _ _)]
    · rw [if_neg hi, hI.blockmap]
      by_cases hd : i ∈ done
      · rw [if_pos hd, if_pos (List.mem_cons_of_mem _ hd)]
      · rw [if_neg hd, if_neg]
        intro hmem
        rcases List.mem_cons.1 hmem with h1 | h1
        · exact hi h1
        · exact hd h1
  · intro j
    rw [hw, applyOp_progPayload_prog, payloadOf_length]
    show (if blockOf p * BLOCK_SIZE ≤ j ∧ j < blockOf p * BLOCK_SIZE + BLOCK_SIZE then
        s.dev.flash.prog j &&& (payloadOf p).getD (j - blockOf p * BLOCK_SIZE) 0
      else s.dev.flash.prog j) = _
    have hB : BLOCK_SIZE = 256 := rfl
    by_cases hj : blockOf p * BLOCK_SIZE ≤ j ∧ j < blockOf p * BLOCK_SIZE + BLOCK_SIZE
    · have hq : j / BLOCK_SIZE = blockOf p := by rw [hB] at hj ⊢; omega
      have hk : j - blockOf p * BLOCK_SIZE < BLOCK_SIZE := by rw [hB] at hj ⊢; omega
      rw [if_pos hj, payloadOf_getD p _ hk, hp.2 _ hk, hI.prog, hq, if_neg hb,
        if_pos (List.mem_cons_self _ _)]
      have he : blockOf p * BLOCK_SIZE + (j - blockOf p * BLOCK_SIZE) = j := by omega
      rw [he]
      have hlt : img j < 256 := by
        have := hp.2 _ hk
        rw [he] at this
        rw [← this]
        exact byte_lt _ _
      exact ff_and _ hlt
    · have hq : j / BLOCK_SIZE ≠ blockOf p := by rw [hB] at hj ⊢; omega
      rw [if_neg hj, hI.prog]
      by_cases hd : j / BLOCK_SIZE ∈ done
      · rw [if_pos hd, if_pos (List.mem_cons_of_mem _ hd)]
      · rw [if_neg hd, if_neg]
        intro hmem
        rcases List.mem_cons.1 hmem with h1 | h1
        · exact hq h1
        · exact hd h1

theorem mid_step (cfg : Config) (L H : Nat) (img : Nat → Nat) (done : List Nat)
    (s : Session) (p : List Nat) (hL : L < 4294967296)
    (hI : MidTransfer cfg L H img done s)
    (hp : carries img p) (hb : blockOf p ∉ done)
    (hmore : ∃ i, i < specN L ∧ i ∉ blockOf p :: done) :
    MidTransfer cfg L H img (blockOf p :: done) (Session.feed cfg s p) := by
  obtain ⟨hs, hm, hl, hf, hbm, hpr⟩ := mid_write cfg L H img done s p hI hp hb
  have ha : alldone (writeBlock 0 s.dev p).2.flash = 0 := by
    rw [alldone_eq_zero_iff]
    obtain ⟨i, hi, hni⟩ := hmore
    refine ⟨i, ?_, ?_⟩
    · rw [hl]; exact Nat.lt_of_lt_of_le hi (specN_le_scanBound L hL)
    · rw [hbm, if_neg hni]
  have hrun : updaterPacketProcess cfg s.astate s.dev p
      = { err := (writeBlock 0 s.dev p).1, astate := .APP_UPDATING,
          dev := (writeBlock 0 s.dev p).2, boots := 0, running := false } := by
    rw [hI.astate, updating_data_ok cfg s.dev p hI.magic hp.1, if_pos ha]
  rw [feed_of_not_running cfg s p hI.running, hrun]
  exact ⟨rfl, rfl, by show s.boots + 0 = 0; rw [hI.boots], hs, hm, hl, hf, hbm, hpr⟩

theorem mid_last (cfg : Config) (L H : Nat) (img : Nat → Nat) (done : List Nat)
    (s : Session) (p : List Nat) (hL1 : 1 ≤ L) (hL : L < 4294967296)
    (hvalid : cfg.hash ((List.range L).map img) = H)
    (hI : MidTransfer cfg L H img done s)
    (hp : carries img p) (hb : blockOf p ∉ done)
    (hall : ∀ i, i < specN L → i ∈ blockOf p :: done) :
    Completed (Session.feed cfg s p) := by
  obtain ⟨hs, hm, hl, hf, hbm, hpr⟩ := mid_write cfg L H img done s p hI hp hb
  have ha : alldone (writeBlock 0 s.dev p).2.flash ≠ 0 := by
    apply alldone_ne_zero_of_claimed
    · rw [hl]; exact hL1
    · rw [hl]; exact hL
    · intro i hi
      rw [hl] at hi
      rw [hbm, if_pos (hall i hi)]
      decide
  have himg : image (writeBlock 0 s.dev p).2.flash = (List.range L).map img := by
    unfold image
    rw [hl]
    apply List.map_congr_left
    intro j hj
    have hjL : j < L := List.mem_range.1 hj
    have hq : j / BLOCK_SIZE < specN L := by
      unfold specN BLOCK_SIZE
      omega
    rw [hpr, if_pos (hall _ hq)]
  have hh : cfg.hash (image (writeBlock 0 s.dev p).2.flash)
      = (writeBlock 0 s.dev p).2.flash.fullhash := by
    rw [himg, hf]; exact hvalid
  have hrun : updaterPacketProcess cfg s.astate s.dev p = finish cfg (writeBlock 0 s.dev p).2 := by
    rw [hI.astate, updating_data_ok cfg s.dev p hI.magic hp.1, if_neg ha]
  rw [feed_of_not_running cfg s p hI.running, hrun]
  rcases finish_cases cfg (writeBlock 0 s.dev p).2 with hc | hc
  · refine ⟨?_, hc.2.2.2.1⟩
    show s.boots + (finish cfg (writeBlock 0 s.dev p).2).boots = 1
    rw [hI.boots, hc.2.2.1]
  · exact absurd hh hc.2.2.2.2.2

theorem completed_feed (cfg : Config) (s : Session) (p : List Nat) (h : Completed s) :
    Completed (Session.feed cfg s p) := by
  unfold Session.feed
  by_cases hr : s.running = true
  · rw [if_pos hr]; exact h
  · rw [if_neg hr]
    have hst : s.astate = .APP_FAIL := by
      rw [h.2, if_neg hr]
    rw [hst]
    exact ⟨by show s.boots + 0 = 1; rw [h.1], rfl⟩

theorem completed_runPackets (cfg : Config) (pkts : List (List Nat)) (s : Session)
    (h : Completed s) : Completed (runPackets cfg s pkts) := by
  induction pkts generalizing s with
  | nil => exact h
  | cons p ps ih =>
    unfold runPackets
    rw [List.foldl_cons]
    exact ih _ (completed_feed cfg s p h)

theorem run_blocks (cfg : Config) (L H : Nat) (img : Nat → Nat)
    (hL1 : 1 ≤ L) (hL : L < 4294967296)
    (hvalid : cfg.hash ((List.range L).map img) = H) :
    ∀ (todo : List (List Nat)) (done : List Nat) (s : Session),
      MidTransfer cfg L H img done s → todo ≠ [] →
      (∀ p, p ∈ todo → carries img p) →
      (todo.map blockOf ++ done).Nodup →
      (∀ i, i < specN L ↔ i ∈ todo.map blockOf ++ done) →
      Completed (runPackets cfg s todo) := by
  intro todo
  induction todo with
  | nil => intro done s _ hne; exact absurd rfl hne
  | cons p rest ih =>
    intro done s hI _ hcar hnd hcov
    have hb : blockOf p ∉ done := by
      rw [List.map_cons, List.cons_append, List.nodup_cons] at hnd
      exact fun hmem => hnd.1 (List.mem_append_right _ hmem)
    have hp := hcar p (List.mem_cons_self _ _)
    unfold runPackets
    rw [List.foldl_cons]
    cases rest with
    | nil =>
      apply mid_last cfg L H img done s p hL1 hL hvalid hI hp hb
      intro i hi
      have := (hcov i).1 hi
      simpa using this
    | cons q rest2 =>
      have hq : blockOf q ∉ blockOf p :: done := by
        rw [List.map_cons, List.map_cons, List.cons_append, List.cons_append,
          List.nodup_cons, List.nodup_cons] at hnd
        intro hmem
        rcases List.mem_cons.1 hmem with h1 | h1
        · exact hnd.1 (by rw [← h1]; exact List.mem_cons_self _ _)
        · exact hnd.2.1 (List.mem_append_right _ h1)
      have hqN : blockOf q < specN L := by
        apply (hcov _).2
        simp
      have hI2 := mid_step cfg L H img done s p hL hI hp hb ⟨blockOf q, hqN, hq⟩
      apply ih (blockOf p :: done) _ hI2 (by simp)
      · intro r hr
        exact hcar r (List.mem_cons_of_mem _ hr)
      · rw [List.map_cons, List.cons_append] at hnd
        exact List.nodup_middle.2 hnd
      · intro i
        rw [hcov i]
        simp only [List.map_cons, List.mem_append, List.mem_cons]
        tauto

/-- Support for C1: starting in `APP_IDLE` on an erased ledger with every driver call
succeeding, after the control packet of a valid image of at least one byte whose guid
is not sixteen 0xFF bytes, followed by its `N = ceil(L / BLOCK_SIZE)` data blocks in
any order and then by any further packets, `bootToUserApp` has been called once and
the state is `APP_UPDATED` (`APP_FAIL` when the handoff returned); the field
`complete` in flash is nevertheless still all-ones. -/
theorem transfer_converges_without_completion_mark (cfg : Config) (c : List Nat)
    (pkts extra : List (List Nat)) (img : Nat → Nat)
    (hM : cfg.STORAGE_MAGIC < 4294967296)
    (hctrl : byte c 0 &&& PKTTYPE_MASK = PKTTYPE_CTRL)
    (hguid : ¬ ∀ i, i < 16 → 0xFF = byte c (CTRL_GUID + i))
    (hL1 : 1 ≤ leDecode c CTRL_LENGTH)
    (hperm : (pkts.map blockOf).Perm (List.range (specN (leDecode c CTRL_LENGTH))))
    (hcar : ∀ p, p ∈ pkts → carries img p)
    (hvalid : cfg.hash ((List.range (leDecode c CTRL_LENGTH)).map img)
      = leDecode c CTRL_FULLHASH) :
    Completed (runPackets cfg (Session.start Flash.erased) (c :: pkts ++ extra)) ∧
    (runPackets cfg (Session.start Flash.erased)
      (c :: pkts ++ extra)).dev.flash.complete = ALL_ONES := by
  refine ⟨?_, runPackets_complete cfg _ _ rfl⟩
  have hL : leDecode c CTRL_LENGTH < 4294967296 := by
    rw [← le32_eq_leDecode]; exact Nat.mod_lt _ (by decide)
  have hg : ¬ ∀ i, i < 16 → (Dev.fresh Flash.erased).flash.guid i = byte c (CTRL_GUID + i) :=
    hguid
  have hrun := idle_new_guid_eq cfg (Dev.fresh Flash.erased) c hctrl hg
  have hI : MidTransfer cfg (leDecode c CTRL_LENGTH) (leDecode c CTRL_FULLHASH) img []
      (Session.feed cfg (Session.start Flash.erased) c) := by
    rw [feed_of_not_running cfg _ c rfl]
    show MidTransfer cfg _ _ img []
      { astate := (updaterPacketProcess cfg .APP_IDLE (Dev.fresh Flash.erased) c).astate
        dev := (updaterPacketProcess cfg .APP_IDLE (Dev.fresh Flash.erased) c).dev
        boots := 0 + (updaterPacketProcess cfg .APP_IDLE (Dev.fresh Flash.erased) c).boots
        running := (updaterPacketProcess cfg .APP_IDLE (Dev.fresh Flash.erased) c).running }
    rw [hrun]
    have hfl : (init_storage_header cfg
        (flashEraseSectors (Dev.fresh Flash.erased) cfg.SECTOR_MIN cfg.SECTOR_COUNT).2 c).flash
        = applyOp Flash.erased (.progHeader (protoOf cfg c)) := rfl
    refine ⟨rfl, rfl, rfl, rfl, ?_, ?_, ?_, fun i => ?_, fun j => ?_⟩
    · show (init_storage_header cfg _ c).flash.magic = _
      rw [hfl]
      exact allOnes_and _ hM
    · show (init_storage_header cfg _ c).flash.length = _
      rw [hfl]
      show ALL_ONES &&& le32 c CTRL_LENGTH = _
      rw [le32_eq_leDecode, allOnes_and _ hL]
    · show (init_storage_header cfg _ c).flash.fullhash = _
      rw [hfl]
      show ALL_ONES &&& le32 c CTRL_FULLHASH = _
      have hH : le32 c CTRL_FULLHASH < 4294967296 := Nat.mod_lt _ (by decide)
      rw [allOnes_and _ hH, le32_eq_leDecode]
    · show (init_storage_header cfg _ c).flash.blockmap i = _
      rw [hfl, if_neg (List.not_mem_nil i)]
      rfl
    · show (init_storage_header cfg _ c).flash.prog j = _
      rw [hfl, if_neg (List.not_mem_nil _)]
      rfl
  have hne : pkts ≠ [] := by
    intro h0
    rw [h0] at hperm
    have hlen := hperm.length_eq
    have hN : 1 ≤ specN (leDecode c CTRL_LENGTH) := by
      unfold specN BLOCK_SIZE; omega
    simp at hlen
    omega
  have hnd : (pkts.map blockOf ++ []).Nodup := by
    rw [List.append_nil]
    exact (hperm.nodup_iff).2 (List.nodup_range _)
  have hcov : ∀ i, i < specN (leDecode c CTRL_LENGTH) ↔ i ∈ pkts.map blockOf ++ [] := by
    intro i
    rw [List.append_nil, hperm.mem_iff, List.mem_range]
  have hdone := run_blocks cfg _ _ img hL1 hL hvalid pkts [] _ hI hne hcar hnd hcov
  have hsplit : runPackets cfg (Session.start Flash.erased) (c :: pkts ++ extra)
      = runPackets cfg (runPackets cfg (Session.feed cfg (Session.start Flash.erased) c) pkts)
          extra := by
    unfold runPackets
    rw [List.cons_append, List.foldl_cons, List.foldl_append]
  rw [hsplit]
  exact completed_runPackets cfg extra _ hdone

set_option maxRecDepth 100000 in
theorem transfer_converges_instance :
    Completed (runPackets sampleCfg (Session.start Flash.erased)
      (appCtrlPkt :: [appDataPkt] ++ [appDataPkt])) ∧
    (runPackets sampleCfg (Session.start Flash.erased)
      (appCtrlPkt :: [appDataPkt] ++ [appDataPkt])).dev.flash.complete = ALL_ONES := by
  have hb : blockOf appDataPkt = 0 := by decide
  apply transfer_converges_without_completion_mark sampleCfg appCtrlPkt [appDataPkt]
    [appDataPkt] (fun j => byte appDataPkt (DATA_PAYLOAD + j))
  · decide
  · decide
  · decide
  · decide
  · rw [List.map_cons, List.map_nil, hb]
    exact List.Perm.refl _
  · intro q hq
    rw [List.mem_singleton] at hq
    rw [hq]
    refine ⟨by decide, ?_⟩
    intro k _
    rw [hb, Nat.zero_mul, Nat.zero_add]
  · decide

/-! ### The scan bound and invariant I1 -/

theorem alldone_zero_or_one (f : Flash) : alldone f = 0 ∨ alldone f = 1 := by
  unfold alldone
  rw [alldone_fold]
  by_cases h : ∃ i, i ∈ List.range (scanBound f.length) ∧ f.blockmap i = ALL_ONES
  · rw [if_pos h]; exact Or.inl rfl
  · rw [if_neg h]; exact Or.inr rfl

/-- C13 as stated fails for the 32-bit image length 0: the loop bound
`((0 - 1) / 256) + 1` is `2^24` in `uint32_t` arithmetic while
`N = ceil(0 / BLOCK_SIZE) = 0`, and on a ledger of length 0 whose entry 1 is all-ones
the scan reports not-done although no entry of `blockmap[0..N)` is all-ones. -/
theorem scan_bound_not_ceil_at_length_zero :
    (0 : Nat) < 4294967296 ∧ scanBound 0 = 16777216 ∧ specN 0 = 0 ∧
    (claimedLedger 0 7).length = 0 ∧
    (∀ i, i < specN (claimedLedger 0 7).length →
      (claimedLedger 0 7).blockmap i ≠ ALL_ONES) ∧
    alldone (claimedLedger 0 7) = 0 := by
  refine ⟨by decide, by decide, by decide, rfl, ?_, ?_⟩
  · intro i hi
    have h0 : specN (claimedLedger 0 7).length = 0 := by decide
    rw [h0] at hi
    exact absurd hi (Nat.not_lt_zero i)
  · rw [alldone_eq_zero_iff]
    exact ⟨1, by decide, rfl⟩

/-- C13 (invariant I1), amended to image lengths of at least 1: for every 32-bit
image length `1 ≤ length`, the loop bound `((length - 1) / BLOCK_SIZE) + 1` of the
scan equals `N = ceil(length / BLOCK_SIZE)`, and the scan reports all-done (1, the
only other value being 0) exactly when no entry of `blockmap[0..N)` is all-ones. -/
theorem scan_bound_is_ceil (f : Flash) (h1 : 1 ≤ f.length) (h2 : f.length < 4294967296) :
    scanBound f.length = specN f.length ∧
    (alldone f = 1 ↔ ∀ i, i < specN f.length → f.blockmap i ≠ ALL_ONES) ∧
    (alldone f = 0 ↔ ∃ i, i < specN f.length ∧ f.blockmap i = ALL_ONES) := by
  have hb := scanBound_eq_specN f.length h1 h2
  have h0 := alldone_eq_zero_iff f
  rw [hb] at h0
  refine ⟨hb, ?_, h0⟩
  constructor
  · intro ha i hi hbm
    have hz : alldone f = 0 := h0.2 ⟨i, hi, hbm⟩
    rw [hz] at ha
    exact absurd ha (by decide)
  · intro hall
    rcases alldone_zero_or_one f with hz | ho
    · obtain ⟨i, hi, hbm⟩ := h0.1 hz
      exact absurd hbm (hall i hi)
    · exact ho

/-- Witness for C13, amended: a fresh ledger for a 512-byte image, `N = 2`. -/
theorem scan_bound_is_ceil_witness :
    scanBound (sampleLedger 512 0).length = 2 ∧ specN (sampleLedger 512 0).length = 2 ∧
    alldone (sampleLedger 512 0) = 0 := by
  have h := scan_bound_is_ceil (sampleLedger 512 0) (by decide) (by decide)
  exact ⟨by decide, by decide, h.2.2.2 ⟨0, by decide, rfl⟩⟩

/-! ### What counts as a corrupt ledger -/

theorem updating_not_data (cfg : Config) (d : Dev) (pkt : List Nat)
    (hnd : byte pkt 0 &&& PKTTYPE_MASK ≠ PKTTYPE_DATA) :
    updaterPacketProcess cfg .APP_UPDATING d pkt
      = { err := (checkMagic cfg d).1, astate := (checkMagic cfg d).2.1,
          dev := (checkMagic cfg d).2.2, boots := 0, running := false } := by
  unfold updaterPacketProcess
  simp only [hnd, ne_eq, not_false_eq_true, if_true]

theorem checkMagic_corrupt (cfg : Config) (d : Dev)
    (hmagic : d.flash.magic ≠ cfg.STORAGE_MAGIC) :
    checkMagic cfg d
      = ((flashEraseSectors d cfg.SECTOR_MIN cfg.SECTOR_COUNT).1, .APP_IDLE,
         (flashEraseSectors d cfg.SECTOR_MIN cfg.SECTOR_COUNT).2) := by
  unfold checkMagic
  rw [if_pos hmagic]

theorem checkMagic_ok (cfg : Config) (d : Dev)
    (hmagic : d.flash.magic = cfg.STORAGE_MAGIC) :
    checkMagic cfg d = (0, .APP_UPDATING, d) := by
  unfold checkMagic
  rw [if_neg (by rw [hmagic]; exact fun h => h rfl)]

theorem writeBlock_blockmap_other (err : Int) (d : Dev) (pkt : List Nat) (i : Nat)
    (hi : i ≠ blockOf pkt) :
    (writeBlock err d pkt).2.flash.blockmap i = d.flash.blockmap i := by
  by_cases h : d.flash.blockmap (blockOf pkt) = ALL_ONES
  · rw [writeBlock_free err d pkt h]
    unfold flashProgram
    have h1 : (flashCall d (.progBlockmap (blockOf pkt) 0)).2.flash.blockmap i
        = d.flash.blockmap i := by
      by_cases he : d.script.headD 0 = 0
      · rw [flashCall_flash_ok d _ he]
        show (if i = blockOf pkt then d.flash.blockmap i &&& 0 else d.flash.blockmap i) = _
        rw [if_neg hi]
      · rw [flashCall_flash_fail d _ he]
    by_cases he2 : (flashCall d (.progBlockmap (blockOf pkt) 0)).2.script.headD 0 = 0
    · rw [flashCall_flash_ok _ _ he2]
      exact h1
    · rw [flashCall_flash_fail _ _ he2]
      exact h1
  · rw [writeBlock_claimed err d pkt h]

theorem updating_corrupt_erased_idle (cfg : Config) (d : Dev) (pkt : List Nat)
    (hmagic : d.flash.magic ≠ cfg.STORAGE_MAGIC)
    (hdata : byte pkt 0 &&& PKTTYPE_MASK = PKTTYPE_DATA)
    (herase : d.script.headD 0 = 0) :
    (updaterPacketProcess cfg .APP_UPDATING d pkt).astate = .APP_IDLE := by
  have hfl : (flashEraseSectors d cfg.SECTOR_MIN cfg.SECTOR_COUNT).2.flash = Flash.erased :=
    flashCall_flash_ok d _ herase
  have hlen := (writeBlock_header (flashEraseSectors d cfg.SECTOR_MIN cfg.SECTOR_COUNT).1
    (flashEraseSectors d cfg.SECTOR_MIN cfg.SECTOR_COUNT).2 pkt).2.1
  rw [hfl] at hlen
  have ha : alldone (writeBlock (flashEraseSectors d cfg.SECTOR_MIN cfg.SECTOR_COUNT).1
      (flashEraseSectors d cfg.SECTOR_MIN cfg.SECTOR_COUNT).2 pkt).2.flash = 0 := by
    rw [alldone_eq_zero_iff, hlen]
    by_cases hb : blockOf pkt = 0
    · refine ⟨1, by decide, ?_⟩
      rw [writeBlock_blockmap_other _ _ pkt 1 (by rw [hb]; decide), hfl]
      rfl
    · refine ⟨0, by decide, ?_⟩
      rw [writeBlock_blockmap_other _ _ pkt 0 (fun h => hb h.symm), hfl]
      rfl
  rw [updating_data_corrupt cfg d pkt hmagic hdata, if_pos ha]

theorem updating_corrupt_first_op (cfg : Config) (d : Dev) (pkt : List Nat)
    (hmagic : d.flash.magic ≠ cfg.STORAGE_MAGIC) :
    ∃ rest, (updaterPacketProcess cfg .APP_UPDATING d pkt).dev.ops
      = d.ops ++ (.erase cfg.SECTOR_MIN cfg.SECTOR_COUNT :: rest) := by
  have he : (flashEraseSectors d cfg.SECTOR_MIN cfg.SECTOR_COUNT).2.ops
      = d.ops ++ [.erase cfg.SECTOR_MIN cfg.SECTOR_COUNT] := flashCall_ops _ _
  by_cases hdata : byte pkt 0 &&& PKTTYPE_MASK = PKTTYPE_DATA
  · obtain ⟨pre, _, hops⟩ := writeBlock_ops_cases
      (flashEraseSectors d cfg.SECTOR_MIN cfg.SECTOR_COUNT).1
      (flashEraseSectors d cfg.SECTOR_MIN cfg.SECTOR_COUNT).2 pkt
    rw [he] at hops
    rw [updating_data_corrupt cfg d pkt hmagic hdata]
    by_cases ha : alldone (writeBlock (flashEraseSectors d cfg.SECTOR_MIN cfg.SECTOR_COUNT).1
        (flashEraseSectors d cfg.SECTOR_MIN cfg.SECTOR_COUNT).2 pkt).2.flash = 0
    · rw [if_pos ha]
      exact ⟨pre, by rw [hops]; simp⟩
    · rw [if_neg ha]
      rcases finish_cases cfg (writeBlock
        (flashEraseSectors d cfg.SECTOR_MIN cfg.SECTOR_COUNT).1
        (flashEraseSectors d cfg.SECTOR_MIN cfg.SECTOR_COUNT).2 pkt).2 with hc | hc
      · refine ⟨pre ++ [.progLocal (writeBlock
          (flashEraseSectors d cfg.SECTOR_MIN cfg.SECTOR_COUNT).1
          (flashEraseSectors d cfg.SECTOR_MIN cfg.SECTOR_COUNT).2 pkt).2.flash.complete], ?_⟩
        rw [hc.1, hops]; simp
      · refine ⟨pre ++ [.erase cfg.SECTOR_MIN cfg.SECTOR_COUNT], ?_⟩
        rw [hc.1, hops]; simp
  · rw [updating_not_data cfg d pkt hdata, checkMagic_corrupt cfg d hmagic]
    exact ⟨[], he⟩

set_option maxRecDepth 100000 in
/-- C11 as stated fails: with a ledger whose magic is `STORAGE_MAGIC` and whose
schema version (2) differs from `STORAGE_VERSION` (1), neither a control packet nor a
data packet processed in `APP_UPDATING` makes the driver erase anything; the state
stays `APP_UPDATING` and the data block is claimed and programmed as on a good
ledger. -/
theorem schema_mismatch_not_detected :
    wrongVersionLedger.magic = sampleCfg.STORAGE_MAGIC ∧
    wrongVersionLedger.version ≠ sampleCfg.STORAGE_VERSION ∧
    (updaterPacketProcess sampleCfg .APP_UPDATING
      (Dev.fresh wrongVersionLedger) ctrlPkt1).dev.ops = [] ∧
    (updaterPacketProcess sampleCfg .APP_UPDATING
      (Dev.fresh wrongVersionLedger) ctrlPkt1).astate = .APP_UPDATING ∧
    (updaterPacketProcess sampleCfg .APP_UPDATING
      (Dev.fresh wrongVersionLedger) zeroDataPkt).dev.ops
      = [.progBlockmap 0 0, .progPayload 0 (payloadOf zeroDataPkt)] ∧
    (updaterPacketProcess sampleCfg .APP_UPDATING
      (Dev.fresh wrongVersionLedger) zeroDataPkt).astate = .APP_UPDATING := by
  decide

/-! ### The value returned -/

theorem advances_refl (d : Dev) (e : Int) : Advances d e 0 d e :=
  ⟨⟨[], by simp, rfl⟩, rfl, rfl⟩

theorem advances_trans (d d1 d2 : Dev) (e e1 e2 : Int) (n m : Nat)
    (h1 : Advances d e n d1 e1) (h2 : Advances d1 e1 m d2 e2) :
    Advances d e (n + m) d2 e2 := by
  obtain ⟨⟨new1, ho1, hl1⟩, hs1, he1⟩ := h1
  obtain ⟨⟨new2, ho2, hl2⟩, hs2, he2⟩ := h2
  refine ⟨⟨new1 ++ new2, ?_, ?_⟩, ?_, ?_⟩
  · rw [ho2, ho1, List.append_assoc]
  · rw [List.length_append, hl1, hl2]
  · rw [hs2, hs1, List.drop_drop]
  · by_cases hm : m = 0
    · subst hm
      rw [if_pos rfl] at he2
      rw [he2, he1]
      rfl
    · rw [if_neg hm] at he2
      rw [he2, hs1, if_neg (by omega)]
      rw [List.getD_eq_getElem?_getD, List.getD_eq_getElem?_getD, List.getElem?_drop]
      congr 2
      omega

theorem advances_flashCall (d : Dev) (e : Int) (op : FlashOp) :
    Advances d e 1 (flashCall d op).2 (flashCall d op).1 := by
  refine ⟨⟨[op], flashCall_ops d op, rfl⟩, ?_, ?_⟩
  · rw [flashCall_script, List.drop_one]
  · rw [flashCall_err]
    cases d.script <;> rfl

theorem advances_checkMagic (cfg : Config) (d : Dev) :
    ∃ n, Advances d 0 n (checkMagic cfg d).2.2 (checkMagic cfg d).1 := by
  by_cases hm : d.flash.magic = cfg.STORAGE_MAGIC
  · rw [checkMagic_ok cfg d hm]
    exact ⟨0, advances_refl d 0⟩
  · rw [checkMagic_corrupt cfg d hm]
    exact ⟨1, advances_flashCall d 0 _⟩

theorem advances_writeBlock (e : Int) (d : Dev) (pkt : List Nat) :
    ∃ n, Advances d e n (writeBlock e d pkt).2 (writeBlock e d pkt).1 := by
  by_cases h : d.flash.blockmap (blockOf pkt) = ALL_ONES
  · rw [writeBlock_free e d pkt h]
    exact ⟨1 + 1, advances_trans _ _ _ _ _ _ _ _ (advances_flashCall d e _)
      (advances_flashCall _ _ _)⟩
  · rw [writeBlock_claimed e d pkt h]
    exact ⟨0, advances_refl d e⟩

theorem advances_finish (cfg : Config) (e : Int) (d : Dev) :
    Advances d e 1 (finish cfg d).dev (finish cfg d).err := by
  by_cases hh : cfg.hash (image d.flash) = d.flash.fullhash
  · rw [finish_match cfg d hh]
    by_cases hb : bootToUserApp cfg (flashProgram d (.progLocal d.flash.complete)).2.flash
        = true
    · rw [if_pos hb]; exact advances_flashCall d e _
    · rw [if_neg hb]; exact advances_flashCall d e _
  · rw [finish_mismatch cfg d hh]
    exact advances_flashCall d e _

theorem updating_data_eq (cfg : Config) (d : Dev) (pkt : List Nat)
    (hdata : byte pkt 0 &&& PKTTYPE_MASK = PKTTYPE_DATA) :
    updaterPacketProcess cfg .APP_UPDATING d pkt
      = if alldone (writeBlock (checkMagic cfg d).1 (checkMagic cfg d).2.2 pkt).2.flash = 0 then
          { err := (writeBlock (checkMagic cfg d).1 (checkMagic cfg d).2.2 pkt).1,
            astate := (checkMagic cfg d).2.1,
            dev := (writeBlock (checkMagic cfg d).1 (checkMagic cfg d).2.2 pkt).2,
            boots := 0, running := false }
        else finish cfg (writeBlock (checkMagic cfg d).1 (checkMagic cfg d).2.2 pkt).2 := by
  unfold updaterPacketProcess
  simp only [hdata, ne_eq, not_true_eq_false, if_false]

theorem advances_updating (cfg : Config) (d : Dev) (pkt : List Nat) :
    ∃ n, Advances d 0 n (updaterPacketProcess cfg .APP_UPDATING d pkt).dev
      (updaterPacketProcess cfg .APP_UPDATING d pkt).err := by
  obtain ⟨nc, hc⟩ := advances_checkMagic cfg d
  by_cases hdata : byte pkt 0 &&& PKTTYPE_MASK = PKTTYPE_DATA
  · obtain ⟨nw, hw⟩ := advances_writeBlock (checkMagic cfg d).1 (checkMagic cfg d).2.2 pkt
    have hcw := advances_trans _ _ _ _ _ _ _ _ hc hw
    rw [updating_data_eq cfg d pkt hdata]
    by_cases ha : alldone (writeBlock (checkMagic cfg d).1 (checkMagic cfg d).2.2 pkt).2.flash = 0
    · rw [if_pos ha]
      exact ⟨nc + nw, hcw⟩
    · rw [if_neg ha]
      exact ⟨nc + nw + 1, advances_trans _ _ _ _ _ _ _ _ hcw (advances_finish cfg _ _)⟩
  · rw [updating_not_data cfg d pkt hdata]
    exact ⟨nc, hc⟩

theorem advances_length (d d' : Dev) (e e' : Int) (n : Nat) (h : Advances d e n d' e') :
    d'.ops.length - d.ops.length = n ∧ (d'.ops.length = d.ops.length ↔ n = 0) := by
  obtain ⟨⟨new, ho, hl⟩, _, _⟩ := h
  rw [ho, List.length_append, hl]
  constructor
  · omega
  · constructor <;> intro h <;> omega

set_option maxRecDepth 100000 in
/-- C12 as stated fails.  In `APP_UPDATING`, when the claim of the block fails with
code 5 and the program of the payload then succeeds, the value returned is 0 although
the most recent flash error of the call is 5.  In `APP_IDLE`, when the erase succeeds
and the header program of `init_storage_header` fails with code 7, the value returned
is 0 although a flash operation of the call failed. -/
theorem returned_value_is_not_last_error :
    (updaterPacketProcess sampleCfg .APP_UPDATING
      { flash := sampleLedger 512 0, script := [5, 0], ops := [] } zeroDataPkt).dev.ops
      = [.progBlockmap 0 0, .progPayload 0 (payloadOf zeroDataPkt)] ∧
    (updaterPacketProcess sampleCfg .APP_UPDATING
      { flash := sampleLedger 512 0, script := [5, 0], ops := [] } zeroDataPkt).err = 0 ∧
    specErr (callResults [5, 0] 2) = 5 ∧
    (updaterPacketProcess sampleCfg .APP_IDLE
      { flash := Flash.erased, script := [0, 7], ops := [] } ctrlPkt1).dev.ops
      = [.erase 22 10, .progHeader (protoOf sampleCfg ctrlPkt1)] ∧
    (updaterPacketProcess sampleCfg .APP_IDLE
      { flash := Flash.erased, script := [0, 7], ops := [] } ctrlPkt1).err = 0 ∧
    specErr (callResults [0, 7] 2) = 7 := by
  decide

/-- C12, amended: for every state, packet and outcome of the driver calls, the calls of
a call of `updaterPacketProcess` are appended to the log, and the value returned is
the result of the last driver call whose result the function assigns to `err`,
whether that call failed or succeeded: in `APP_IDLE` the result of the erase (the
result of the header program of `init_storage_header` is dropped), in every other
state the result of the last call made; it is 0 when no driver call was made. -/
theorem returned_value_is_last_result (cfg : Config) (st : app_state) (d : Dev)
    (pkt : List Nat) :
    (∃ new, (updaterPacketProcess cfg st d pkt).dev.ops = d.ops ++ new) ∧
    (updaterPacketProcess cfg st d pkt).err
      = if (updaterPacketProcess cfg st d pkt).dev.ops.length = d.ops.length then 0
        else if st = .APP_IDLE then d.script.headD 0
        else d.script.getD
          ((updaterPacketProcess cfg st d pkt).dev.ops.length - d.ops.length - 1) 0 := by
  cases st with
  | APP_IDLE =>
    by_cases hc : byte pkt 0 &&& PKTTYPE_MASK ≠ PKTTYPE_CTRL
    · have hrun : updaterPacketProcess cfg .APP_IDLE d pkt
          = { err := 0, astate := .APP_IDLE, dev := d, boots := 0, running := false } := by
        unfold updaterPacketProcess
        rw [if_pos hc]
      rw [hrun]
      exact ⟨⟨[], by simp⟩, by simp⟩
    · by_cases hg : guidMatch d.flash pkt = true
      · have hrun : (updaterPacketProcess cfg .APP_IDLE d pkt).dev = d ∧
            (updaterPacketProcess cfg .APP_IDLE d pkt).err = 0 := by
          unfold updaterPacketProcess
          rw [if_neg hc, if_pos hg]
          by_cases hcm : d.flash.complete = ALL_ONES
          · rw [if_pos hcm]; exact ⟨rfl, rfl⟩
          · rw [if_neg hcm]; exact ⟨rfl, rfl⟩
        rw [hrun.1, hrun.2]
        exact ⟨⟨[], by simp⟩, by simp⟩
      · have hrun : updaterPacketProcess cfg .APP_IDLE d pkt
            = { err := (flashEraseSectors d cfg.SECTOR_MIN cfg.SECTOR_COUNT).1
                astate := .APP_UPDATING
                dev := init_storage_header cfg
                  (flashEraseSectors d cfg.SECTOR_MIN cfg.SECTOR_COUNT).2 pkt
                boots := 0
                running := false } := by
          unfold updaterPacketProcess
          rw [if_neg hc, if_neg hg]
        have hops : (init_storage_header cfg
            (flashEraseSectors d cfg.SECTOR_MIN cfg.SECTOR_COUNT).2 pkt).ops
            = d.ops ++ [.erase cfg.SECTOR_MIN cfg.SECTOR_COUNT,
                .progHeader (protoOf cfg pkt)] := by
          show (flashCall (flashCall d _).2 _).2.ops = _
          rw [flashCall_ops, flashCall_ops, List.append_assoc]
          rfl
        rw [hrun]
        refine ⟨⟨_, hops⟩, ?_⟩
        show (flashEraseSectors d cfg.SECTOR_MIN cfg.SECTOR_COUNT).1 = _
        rw [hops, List.length_append, if_neg (by simp), if_pos rfl]
        rfl
  | APP_GOT_ID => exact ⟨⟨[], by simp [updaterPacketProcess]⟩, by simp [updaterPacketProcess]⟩
  | APP_UPDATING =>
    obtain ⟨n, hn⟩ := advances_updating cfg d pkt
    have hl := advances_length _ _ _ _ _ hn
    obtain ⟨⟨new, ho, _⟩, _, he⟩ := hn
    refine ⟨⟨new, ho⟩, ?_⟩
    rw [he, hl.1]
    by_cases h0 : n = 0
    · rw [if_pos h0, if_pos (hl.2.2 h0)]
    · rw [if_neg h0, if_neg (fun h => h0 (hl.2.1 h)), if_neg (by decide)]
  | APP_UPDATED =>
    have hrun : (updaterPacketProcess cfg .APP_UPDATED d pkt).dev = d ∧
        (updaterPacketProcess cfg .APP_UPDATED d pkt).err = 0 := by
      unfold updaterPacketProcess
      by_cases hb : bootToUserApp cfg d.flash = true
      · rw [if_pos hb]; exact ⟨rfl, rfl⟩
      · rw [if_neg hb]; exact ⟨rfl, rfl⟩
    rw [hrun.1, hrun.2]
    exact ⟨⟨[], by simp⟩, by simp⟩
  | APP_FAIL => exact ⟨⟨[], by simp [updaterPacketProcess]⟩, by simp [updaterPacketProcess]⟩

set_option maxRecDepth 100000 in
/-- Witness for C12, amended: the data packet of block 0 on a fresh ledger, the claim
failing with code 5 and the payload program with code 9; the value returned is 9. -/
theorem returned_value_is_last_result_witness :
    (updaterPacketProcess sampleCfg .APP_UPDATING
      { flash := sampleLedger 512 0, script := [5, 9], ops := [] } zeroDataPkt).err = 9 := by
  have h := (returned_value_is_last_result sampleCfg .APP_UPDATING
    { flash := sampleLedger 512 0, script := [5, 9], ops := [] } zeroDataPkt).2
  rw [h]
  decide

/-! ### The block index -/

theorem blockOf_lt (pkt : List Nat) : blockOf pkt < 65536 :=
  Nat.mod_lt _ (by decide)

set_option maxRecDepth 100000 in
/-- C14 as stated fails: on a good ledger for a 1-byte image (`N = 1`) the data packet
of block 1, whose block index is not below `N`, is claimed and programmed like any
other: the driver programs `blockmap[1]` and the payload at offset `1 * BLOCK_SIZE`
of the program region, both outside `blockmap[0..N)` and the first `N` blocks. -/
theorem block_index_not_bounded :
    (sampleLedger 1 0).magic = sampleCfg.STORAGE_MAGIC ∧
    (sampleLedger 1 0).version = sampleCfg.STORAGE_VERSION ∧
    specN (sampleLedger 1 0).length = 1 ∧
    blockOf blockOnePkt = 1 ∧
    (updaterPacketProcess sampleCfg .APP_UPDATING
      (Dev.fresh (sampleLedger 1 0)) blockOnePkt).dev.ops
      = [.progBlockmap 1 0, .progPayload 256 (payloadOf blockOnePkt)] ∧
    (updaterPacketProcess sampleCfg .APP_UPDATING
      (Dev.fresh (sampleLedger 1 0)) blockOnePkt).dev.flash.blockmap 1 = 0 ∧
    (updaterPacketProcess sampleCfg .APP_UPDATING
      (Dev.fresh (sampleLedger 1 0)) blockOnePkt).dev.flash.prog 256 = 0 := by
  decide

/-- C14, amended: for every data packet processed in `APP_UPDATING` with a ledger
whose magic is good, the only block map entry programmed and the only payload address
programmed are those of the 16-bit block index of the packet (`blockmap[block]` and
offset `block * BLOCK_SIZE` of the program region, `block < 65536`), and they are
programmed exactly when `blockmap[block]` reads all-ones, whatever the relation of
the index to `N`; what follows is at most the completion call or the erase of a hash
mismatch. -/
theorem data_packet_block_index (cfg : Config) (d : Dev) (pkt : List Nat)
    (hmagic : d.flash.magic = cfg.STORAGE_MAGIC)
    (hdata : byte pkt 0 &&& PKTTYPE_MASK = PKTTYPE_DATA) :
    blockOf pkt < 65536 ∧
    ∃ rest, (updaterPacketProcess cfg .APP_UPDATING d pkt).dev.ops
        = d.ops ++ (if d.flash.blockmap (blockOf pkt) = ALL_ONES then
            [.progBlockmap (blockOf pkt) 0,
             .progPayload (blockOf pkt * BLOCK_SIZE) (payloadOf pkt)]
          else []) ++ rest ∧
      (rest = [] ∨ rest = [.progLocal d.flash.complete]
        ∨ rest = [.erase cfg.SECTOR_MIN cfg.SECTOR_COUNT]) := by
  refine ⟨blockOf_lt pkt, ?_⟩
  have hhdr := writeBlock_header 0 d pkt
  have hops : (writeBlock 0 d pkt).2.ops
      = d.ops ++ (if d.flash.blockmap (blockOf pkt) = ALL_ONES then
            [.progBlockmap (blockOf pkt) 0,
             .progPayload (blockOf pkt * BLOCK_SIZE) (payloadOf pkt)]
          else []) := by
    by_cases h : d.flash.blockmap (blockOf pkt) = ALL_ONES
    · rw [if_pos h]; exact writeBlock_ops_free 0 d pkt h
    · rw [if_neg h, writeBlock_claimed 0 d pkt h, List.append_nil]
  rw [updating_data_ok cfg d pkt hmagic hdata]
  by_cases ha : alldone (writeBlock 0 d pkt).2.flash = 0
  · rw [if_pos ha]
    exact ⟨[], by rw [List.append_nil]; exact hops, Or.inl rfl⟩
  · rw [if_neg ha]
    rcases finish_cases cfg (writeBlock 0 d pkt).2 with hc | hc
    · exact ⟨[.progLocal d.flash.complete], by rw [hc.1, hops, hhdr.2.2.2],
        Or.inr (Or.inl rfl)⟩
    · exact ⟨[.erase cfg.SECTOR_MIN cfg.SECTOR_COUNT], by rw [hc.1, hops],
        Or.inr (Or.inr rfl)⟩

set_option maxRecDepth 100000 in
/-- Witness for C14, amended: a fresh ledger for a 1-byte image and the data packet of
block 1. -/
theorem data_packet_block_index_witness :
    ∃ rest, (updaterPacketProcess sampleCfg .APP_UPDATING
        (Dev.fresh (sampleLedger 1 0)) blockOnePkt).dev.ops
        = (Dev.fresh (sampleLedger 1 0)).ops
          ++ (if (Dev.fresh (sampleLedger 1 0)).flash.blockmap (blockOf blockOnePkt) = ALL_ONES
              then [.progBlockmap (blockOf blockOnePkt) 0,
                .progPayload (blockOf blockOnePkt * BLOCK_SIZE) (payloadOf blockOnePkt)]
              else []) ++ rest ∧
      (rest = [] ∨ rest = [.progLocal (Dev.fresh (sampleLedger 1 0)).flash.complete]
        ∨ rest = [.erase sampleCfg.SECTOR_MIN sampleCfg.SECTOR_COUNT]) :=
  (data_packet_block_index sampleCfg (Dev.fresh (sampleLedger 1 0)) blockOnePkt rfl
    (by decide)).2

/-! ### Two data blocks in either order -/

theorem flash_ext (f g : Flash) (h1 : f.magic = g.magic) (h2 : f.version = g.version)
    (h3 : f.guid = g.guid) (h4 : f.fullhash = g.fullhash) (h5 : f.length = g.length)
    (h6 : f.blockmap = g.blockmap) (h7 : f.complete = g.complete) (h8 : f.prog = g.prog) :
    f = g := by
  cases f
  cases g
  simp only [Flash.mk.injEq]
  exact ⟨h1, h2, h3, h4, h5, h6, h7, h8⟩

theorem claimWrite_claimed (f : Flash) (p : List Nat)
    (h : f.blockmap (blockOf p) ≠ ALL_ONES) : claimWrite f p = f := by
  unfold claimWrite
  rw [if_neg h]

theorem claimWrite_free (f : Flash) (p : List Nat)
    (h : f.blockmap (blockOf p) = ALL_ONES) :
    claimWrite f p
      = applyOp (applyOp f (.progBlockmap (blockOf p) 0))
          (.progPayload (blockOf p * BLOCK_SIZE) (payloadOf p)) := by
  unfold claimWrite
  rw [if_pos h]

theorem claimWrite_header (f : Flash) (p : List Nat) :
    (claimWrite f p).magic = f.magic ∧ (claimWrite f p).length = f.length ∧
    (claimWrite f p).fullhash = f.fullhash := by
  by_cases h : f.blockmap (blockOf p) = ALL_ONES
  · rw [claimWrite_free f p h]; exact ⟨rfl, rfl, rfl⟩
  · rw [claimWrite_claimed f p h]; exact ⟨rfl, rfl, rfl⟩

theorem claimWrite_blockmap_other (f : Flash) (p : List Nat) (i : Nat)
    (hi : i ≠ blockOf p) : (claimWrite f p).blockmap i = f.blockmap i := by
  by_cases h : f.blockmap (blockOf p) = ALL_ONES
  · rw [claimWrite_free f p h]
    show (if i = blockOf p then f.blockmap i &&& 0 else f.blockmap i) = _
    rw [if_neg hi]
  · rw [claimWrite_claimed f p h]

theorem writeBlock_flash_claimWrite (err : Int) (d : Dev) (p : List Nat)
    (hs : d.script = []) : (writeBlock err d p).2.flash = claimWrite d.flash p := by
  by_cases h : d.flash.blockmap (blockOf p) = ALL_ONES
  · rw [writeBlock_flash_free_ok err d p h (by rw [hs]; rfl) (by rw [hs]; rfl),
      claimWrite_free _ p h]
  · rw [writeBlock_claimed err d p h, claimWrite_claimed _ p h]

theorem claimWrite_comm (f : Flash) (p q : List Nat) (hne : blockOf p ≠ blockOf q) :
    claimWrite (claimWrite f p) q = claimWrite (claimWrite f q) p := by
  have hqp : (claimWrite f p).blockmap (blockOf q) = f.blockmap (blockOf q) :=
    claimWrite_blockmap_other f p _ (fun h => hne h.symm)
  have hpq : (claimWrite f q).blockmap (blockOf p) = f.blockmap (blockOf p) :=
    claimWrite_blockmap_other f q _ hne
  by_cases hp : f.blockmap (blockOf p) = ALL_ONES
  · by_cases hq : f.blockmap (blockOf q) = ALL_ONES
    · rw [claimWrite_free (claimWrite f p) q (by rw [hqp]; exact hq),
        claimWrite_free (claimWrite f q) p (by rw [hpq]; exact hp), claimWrite_free f p hp,
        claimWrite_free f q hq]
      have hB : BLOCK_SIZE = 256 := rfl
      apply flash_ext
      · rfl
      · rfl
      · rfl
      · rfl
      · rfl
      · funext i
        show (if i = blockOf q then
            (if i = blockOf p then f.blockmap i &&& 0 else f.blockmap i) &&& 0
          else (if i = blockOf p then f.blockmap i &&& 0 else f.blockmap i))
          = (if i = blockOf p then
            (if i = blockOf q then f.blockmap i &&& 0 else f.blockmap i) &&& 0
          else (if i = blockOf q then f.blockmap i &&& 0 else f.blockmap i))
        by_cases h1 : i = blockOf p
        · have h2 : i ≠ blockOf q := fun h => hne (h1.symm.trans h)
          rw [if_pos h1, if_neg h2, if_pos h1, if_neg h2, Nat.and_zero]
        · by_cases h2 : i = blockOf q
          · rw [if_pos h2, if_neg h1, if_neg h1, if_pos h2, Nat.and_zero]
          · rw [if_neg h2, if_neg h1, if_neg h1, if_neg h2]
      · rfl
      · funext j
        rw [applyOp_progPayload_prog, applyOp_progPayload_prog]
        show (if blockOf q * BLOCK_SIZE ≤ j ∧ j < blockOf q * BLOCK_SIZE + (payloadOf q).length
            then (applyOp f (.progPayload (blockOf p * BLOCK_SIZE) (payloadOf p))).prog j
              &&& (payloadOf q).getD (j - blockOf q * BLOCK_SIZE) 0
            else (applyOp f (.progPayload (blockOf p * BLOCK_SIZE) (payloadOf p))).prog j)
          = (if blockOf p * BLOCK_SIZE ≤ j ∧ j < blockOf p * BLOCK_SIZE + (payloadOf p).length
            then (applyOp f (.progPayload (blockOf q * BLOCK_SIZE) (payloadOf q))).prog j
              &&& (payloadOf p).getD (j - blockOf p * BLOCK_SIZE) 0
            else (applyOp f (.progPayload (blockOf q * BLOCK_SIZE) (payloadOf q))).prog j)
        rw [applyOp_progPayload_prog, applyOp_progPayload_prog, payloadOf_length,
          payloadOf_length]
        by_cases h1 : blockOf p * BLOCK_SIZE ≤ j ∧ j < blockOf p * BLOCK_SIZE + BLOCK_SIZE
        · have h2 : ¬ (blockOf q * BLOCK_SIZE ≤ j ∧ j < blockOf q * BLOCK_SIZE + BLOCK_SIZE) := by
            rw [hB] at h1 ⊢; omega
          simp only [if_pos h1, if_neg h2]
        · simp only [if_neg h1]
    · rw [claimWrite_claimed (claimWrite f p) q (by rw [hqp]; exact hq),
        claimWrite_claimed f q hq]
  · by_cases hq : f.blockmap (blockOf q) = ALL_ONES
    · rw [claimWrite_claimed (claimWrite f q) p (by rw [hpq]; exact hp),
        claimWrite_claimed f p hp]
    · rw [claimWrite_claimed f p hp, claimWrite_claimed f q hq,
        claimWrite_claimed f p hp]

theorem one_call_settles (cfg : Config) (d : Dev) (p : List Nat)
    (hs : d.script = []) (hboot : ∀ f, bootToUserApp cfg f = false)
    (hmagic : d.flash.magic = cfg.STORAGE_MAGIC)
    (hdata : byte p 0 &&& PKTTYPE_MASK = PKTTYPE_DATA) :
    (updaterPacketProcess cfg .APP_UPDATING d p).astate
      = (settle cfg (claimWrite d.flash p)).1 ∧
    (updaterPacketProcess cfg .APP_UPDATING d p).dev.flash
      = (settle cfg (claimWrite d.flash p)).2.1 ∧
    (updaterPacketProcess cfg .APP_UPDATING d p).boots
      = (settle cfg (claimWrite d.flash p)).2.2 ∧
    (updaterPacketProcess cfg .APP_UPDATING d p).dev.script = [] ∧
    (updaterPacketProcess cfg .APP_UPDATING d p).running = false := by
  have hw := writeBlock_flash_claimWrite 0 d p hs
  have hws := writeBlock_script 0 d p hs
  rw [updating_data_ok cfg d p hmagic hdata]
  unfold settle
  rw [← hw]
  by_cases ha : alldone (writeBlock 0 d p).2.flash = 0
  · rw [if_pos ha, if_pos ha]
    exact ⟨rfl, rfl, rfl, hws, rfl⟩
  · rw [if_neg ha, if_neg ha]
    by_cases hh : cfg.hash (image (writeBlock 0 d p).2.flash)
        = (writeBlock 0 d p).2.flash.fullhash
    · rw [finish_match cfg _ hh, if_pos hh, hboot, if_neg (by decide)]
      refine ⟨rfl, progLocal_flash _ _, rfl, ?_, rfl⟩
      show (flashCall _ _).2.script = []
      rw [flashCall_script, hws]
      rfl
    · rw [finish_mismatch cfg _ hh, if_neg hh]
      refine ⟨rfl, ?_, rfl, ?_, rfl⟩
      · exact flashCall_flash_ok _ _ (by rw [hws]; rfl)
      · show (flashCall _ _).2.script = []
        rw [flashCall_script, hws]
        rfl

theorem settled_ignores_data (cfg : Config) (st : app_state) (d : Dev) (q : List Nat)
    (hst : st = .APP_FAIL ∨ st = .APP_IDLE)
    (hdata : byte q 0 &&& PKTTYPE_MASK = PKTTYPE_DATA) :
    (updaterPacketProcess cfg st d q).astate = st ∧
    (updaterPacketProcess cfg st d q).dev = d ∧
    (updaterPacketProcess cfg st d q).boots = 0 ∧
    (updaterPacketProcess cfg st d q).running = false := by
  rcases hst with h | h
  · rw [h]; exact ⟨rfl, rfl, rfl, rfl⟩
  · rw [h]
    unfold updaterPacketProcess
    rw [if_pos (isData_not_ctrl q hdata)]
    exact ⟨rfl, rfl, rfl, rfl⟩

theorem settle_state (cfg : Config) (g : Flash) (ha : alldone g ≠ 0) :
    (settle cfg g).1 = .APP_FAIL ∨ (settle cfg g).1 = .APP_IDLE := by
  unfold settle
  rw [if_neg ha]
  by_cases hh : cfg.hash (image g) = g.fullhash
  · rw [if_pos hh]; exact Or.inl rfl
  · rw [if_neg hh]; exact Or.inr rfl

theorem two_calls_settle (cfg : Config) (d : Dev) (p q : List Nat)
    (hs : d.script = []) (hboot : ∀ f, bootToUserApp cfg f = false)
    (hmagic : d.flash.magic = cfg.STORAGE_MAGIC)
    (hL1 : 1 ≤ d.flash.length) (hL : d.flash.length < 4294967296)
    (hp : byte p 0 &&& PKTTYPE_MASK = PKTTYPE_DATA)
    (hq : byte q 0 &&& PKTTYPE_MASK = PKTTYPE_DATA)
    (hqN : blockOf q < specN d.flash.length) :
    (runPackets cfg (Session.updating d) [p, q]).astate
      = (settle cfg (claimWrite (claimWrite d.flash p) q)).1 ∧
    (runPackets cfg (Session.updating d) [p, q]).dev.flash
      = (settle cfg (claimWrite (claimWrite d.flash p) q)).2.1 ∧
    (runPackets cfg (Session.updating d) [p, q]).boots
      = (settle cfg (claimWrite (claimWrite d.flash p) q)).2.2 := by
  obtain ⟨h1a, h1f, h1b, h1s, h1r⟩ := one_call_settles cfg d p hs hboot hmagic hp
  have hhdr := claimWrite_header d.flash p
  have hrun : runPackets cfg (Session.updating d) [p, q]
      = Session.feed cfg (Session.feed cfg (Session.updating d) p) q := rfl
  have hfeed1 : Session.feed cfg (Session.updating d) p
      = { astate := (updaterPacketProcess cfg .APP_UPDATING d p).astate
          dev := (updaterPacketProcess cfg .APP_UPDATING d p).dev
          boots := 0 + (updaterPacketProcess cfg .APP_UPDATING d p).boots
          running := (updaterPacketProcess cfg .APP_UPDATING d p).running } :=
    feed_of_not_running cfg (Session.updating d) p rfl
  rw [hrun, hfeed1, feed_of_not_running cfg _ q h1r]
  show (updaterPacketProcess cfg (updaterPacketProcess cfg .APP_UPDATING d p).astate
        (updaterPacketProcess cfg .APP_UPDATING d p).dev q).astate = _ ∧
    (updaterPacketProcess cfg (updaterPacketProcess cfg .APP_UPDATING d p).astate
        (updaterPacketProcess cfg .APP_UPDATING d p).dev q).dev.flash = _ ∧
    0 + (updaterPacketProcess cfg .APP_UPDATING d p).boots
      + (updaterPacketProcess cfg (updaterPacketProcess cfg .APP_UPDATING d p).astate
        (updaterPacketProcess cfg .APP_UPDATING d p).dev q).boots = _
  by_cases ha : alldone (claimWrite d.flash p) = 0
  · have hst : (settle cfg (claimWrite d.flash p)) = (.APP_UPDATING, claimWrite d.flash p, 0) := by
      unfold settle
      rw [if_pos ha]
    rw [hst] at h1a h1f h1b
    have h1a2 : (updaterPacketProcess cfg .APP_UPDATING d p).astate = .APP_UPDATING := h1a
    have h1f2 : (updaterPacketProcess cfg .APP_UPDATING d p).dev.flash
        = claimWrite d.flash p := h1f
    have h1b2 : (updaterPacketProcess cfg .APP_UPDATING d p).boots = 0 := h1b
    have hm2 : (updaterPacketProcess cfg .APP_UPDATING d p).dev.flash.magic
        = cfg.STORAGE_MAGIC := by
      rw [h1f2]; exact hhdr.1.trans hmagic
    obtain ⟨h2a, h2f, h2b, _, _⟩ := one_call_settles cfg
      (updaterPacketProcess cfg .APP_UPDATING d p).dev q h1s hboot hm2 hq
    rw [h1f2] at h2a h2f h2b
    rw [h1a2, h1b2, h2a, h2f, h2b]
    exact ⟨rfl, rfl, by omega⟩
  · have hclaimed : (claimWrite d.flash p).blockmap (blockOf q) ≠ ALL_ONES := by
      intro hfree
      apply ha
      rw [alldone_eq_zero_iff]
      refine ⟨blockOf q, ?_, hfree⟩
      rw [hhdr.2.1, scanBound_eq_specN _ hL1 hL]
      exact hqN
    rw [claimWrite_claimed _ q hclaimed]
    have hst := settle_state cfg (claimWrite d.flash p) ha
    rw [← h1a] at hst
    obtain ⟨h2a, h2d, h2b, _⟩ := settled_ignores_data cfg _
      (updaterPacketProcess cfg .APP_UPDATING d p).dev q hst hq
    rw [h2a, h2d, h2b, h1a, h1f, h1b]
    exact ⟨rfl, rfl, by omega⟩

/-- C15 (order independence of data blocks): for every ledger whose magic is good and
whose image length is at least 1, and every two data packets with distinct block
indices both below `N`, with the driver calls succeeding and `bootToUserApp`
returning, processing the two packets from `APP_UPDATING` in either order gives the
same final flash contents (ledger and program region), the same final state and the
same number of calls of `bootToUserApp`. -/
theorem data_blocks_either_order (cfg : Config) (d : Dev) (p q : List Nat)
    (hs : d.script = []) (hboot : ∀ f, bootToUserApp cfg f = false)
    (hmagic : d.flash.magic = cfg.STORAGE_MAGIC)
    (hL1 : 1 ≤ d.flash.length) (hL : d.flash.length < 4294967296)
    (hp : byte p 0 &&& PKTTYPE_MASK = PKTTYPE_DATA)
    (hq : byte q 0 &&& PKTTYPE_MASK = PKTTYPE_DATA)
    (hne : blockOf p ≠ blockOf q)
    (hpN : blockOf p < specN d.flash.length)
    (hqN : blockOf q < specN d.flash.length) :
    (runPackets cfg (Session.updating d) [p, q]).dev.flash
      = (runPackets cfg (Session.updating d) [q, p]).dev.flash ∧
    (runPackets cfg (Session.updating d) [p, q]).astate
      = (runPackets cfg (Session.updating d) [q, p]).astate ∧
    (runPackets cfg (Session.updating d) [p, q]).boots
      = (runPackets cfg (Session.updating d) [q, p]).boots := by
  obtain ⟨ha1, hf1, hb1⟩ := two_calls_settle cfg d p q hs hboot hmagic hL1 hL hp hq hqN
  obtain ⟨ha2, hf2, hb2⟩ := two_calls_settle cfg d q p hs hboot hmagic hL1 hL hq hp hpN
  rw [ha1, hf1, hb1, ha2, hf2, hb2, claimWrite_comm d.flash p q hne]
  exact ⟨rfl, rfl, rfl⟩

set_option maxRecDepth 100000 in
/-- Witness for C15: a fresh ledger for a 512-byte image (`N = 2`) and the data
packets of blocks 0 and 1, with an application header that never validates. -/
theorem data_blocks_either_order_witness :
    (runPackets noBootCfg (Session.updating (Dev.fresh (sampleLedger 512 0)))
        [zeroDataPkt, blockOnePkt]).dev.flash
      = (runPackets noBootCfg (Session.updating (Dev.fresh (sampleLedger 512 0)))
        [blockOnePkt, zeroDataPkt]).dev.flash ∧
    (runPackets noBootCfg (Session.updating (Dev.fresh (sampleLedger 512 0)))
        [zeroDataPkt, blockOnePkt]).astate
      = (runPackets noBootCfg (Session.updating (Dev.fresh (sampleLedger 512 0)))
        [blockOnePkt, zeroDataPkt]).astate ∧
    (runPackets noBootCfg (Session.updating (Dev.fresh (sampleLedger 512 0)))
        [zeroDataPkt, blockOnePkt]).boots
      = (runPackets noBootCfg (Session.updating (Dev.fresh (sampleLedger 512 0)))
        [blockOnePkt, zeroDataPkt]).boots :=
  data_blocks_either_order noBootCfg (Dev.fresh (sampleLedger 512 0)) zeroDataPkt blockOnePkt
    rfl (fun _ => rfl) rfl (by decide) (by decide) zeroDataPkt_isData (by decide)
    (by decide) (by decide) (by decide)

/-! ### The schema version is never read -/

theorem eqUpToVersion_refl (f : Flash) : EqUpToVersion f f :=
  ⟨rfl, rfl, rfl, rfl, rfl, rfl, rfl⟩

theorem eqUpToVersion_withVersion (f : Flash) (v : Nat) :
    EqUpToVersion f (withVersion f v) :=
  ⟨rfl, rfl, rfl, rfl, rfl, rfl, rfl⟩

theorem applyOp_eqUpToVersion (f g : Flash) (op : FlashOp) (h : EqUpToVersion f g)
    (hop : ∀ p, op ≠ .progHeader p) : EqUpToVersion (applyOp f op) (applyOp g op) := by
  obtain ⟨h1, h2, h3, h4, h5, h6, h7⟩ := h
  cases op with
  | erase a b => exact eqUpToVersion_refl _
  | progHeader p => exact absurd rfl (hop p)
  | progBlockmap b w =>
    refine ⟨h1, h2, h3, h4, ?_, h6, h7⟩
    show (fun i => if i = b then f.blockmap i &&& w else f.blockmap i)
      = (fun i => if i = b then g.blockmap i &&& w else g.blockmap i)
    rw [h5]
  | progPayload o l =>
    refine ⟨h1, h2, h3, h4, h5, h6, ?_⟩
    show (fun j => if o ≤ j ∧ j < o + l.length then f.prog j &&& l.getD (j - o) 0
        else f.prog j)
      = (fun j => if o ≤ j ∧ j < o + l.length then g.prog j &&& l.getD (j - o) 0
        else g.prog j)
    rw [h7]
  | progLocal w => exact ⟨h1, h2, h3, h4, h5, h6, h7⟩

theorem flashCall_upToVersion (d e : Dev) (op : FlashOp) (h : DevEqUpToVersion d e)
    (hop : ∀ p, op ≠ .progHeader p) :
    (flashCall d op).1 = (flashCall e op).1 ∧
    DevEqUpToVersion (flashCall d op).2 (flashCall e op).2 := by
  obtain ⟨hs, ho, hf⟩ := h
  refine ⟨by rw [flashCall_err, flashCall_err, hs], ?_, ?_, ?_⟩
  · rw [flashCall_script, flashCall_script, hs]
  · rw [flashCall_ops, flashCall_ops, ho]
  · by_cases he : d.script.headD 0 = 0
    · rw [flashCall_flash_ok d op he, flashCall_flash_ok e op (by rw [← hs]; exact he)]
      exact applyOp_eqUpToVersion _ _ op hf hop
    · rw [flashCall_flash_fail d op he, flashCall_flash_fail e op (by rw [← hs]; exact he)]
      exact hf

theorem checkMagic_upToVersion (cfg : Config) (d e : Dev) (h : DevEqUpToVersion d e) :
    (checkMagic cfg d).1 = (checkMagic cfg e).1 ∧
    (checkMagic cfg d).2.1 = (checkMagic cfg e).2.1 ∧
    DevEqUpToVersion (checkMagic cfg d).2.2 (checkMagic cfg e).2.2 := by
  by_cases hm : d.flash.magic = cfg.STORAGE_MAGIC
  · rw [checkMagic_ok cfg d hm, checkMagic_ok cfg e (by rw [← h.2.2.1]; exact hm)]
    exact ⟨rfl, rfl, h⟩
  · rw [checkMagic_corrupt cfg d hm, checkMagic_corrupt cfg e (by rw [← h.2.2.1]; exact hm)]
    have hc := flashCall_upToVersion d e (.erase cfg.SECTOR_MIN cfg.SECTOR_COUNT) h
      (fun _ => by simp)
    exact ⟨hc.1, rfl, hc.2⟩

theorem writeBlock_upToVersion (err : Int) (d e : Dev) (pkt : List Nat)
    (h : DevEqUpToVersion d e) :
    (writeBlock err d pkt).1 = (writeBlock err e pkt).1 ∧
    DevEqUpToVersion (writeBlock err d pkt).2 (writeBlock err e pkt).2 := by
  have hbm : d.flash.blockmap (blockOf pkt) = e.flash.blockmap (blockOf pkt) := by
    rw [h.2.2.2.2.2.2.1]
  by_cases hfree : d.flash.blockmap (blockOf pkt) = ALL_ONES
  · rw [writeBlock_free err d pkt hfree, writeBlock_free err e pkt (by rw [← hbm]; exact hfree)]
    unfold flashProgram
    have h1 := flashCall_upToVersion d e (.progBlockmap (blockOf pkt) 0) h (fun _ => by simp)
    exact flashCall_upToVersion _ _
      (.progPayload (blockOf pkt * BLOCK_SIZE) (payloadOf pkt)) h1.2 (fun _ => by simp)
  · rw [writeBlock_claimed err d pkt hfree,
      writeBlock_claimed err e pkt (by rw [← hbm]; exact hfree)]
    exact ⟨rfl, h⟩

theorem alldone_upToVersion (f g : Flash) (h : EqUpToVersion f g) : alldone f = alldone g := by
  unfold alldone
  rw [h.2.2.2.1, h.2.2.2.2.1]

theorem image_upToVersion (f g : Flash) (h : EqUpToVersion f g) : image f = image g := by
  unfold image
  rw [h.2.2.2.1, h.2.2.2.2.2.2]

theorem finish_err_match (cfg : Config) (d : Dev)
    (hh : cfg.hash (image d.flash) = d.flash.fullhash) :
    (finish cfg d).err = (flashProgram d (.progLocal d.flash.complete)).1 := by
  rw [finish_match cfg d hh]
  by_cases hb : bootToUserApp cfg (flashProgram d (.progLocal d.flash.complete)).2.flash
      = true
  · rw [if_pos hb]
  · rw [if_neg hb]

theorem finish_upToVersion (cfg : Config) (d e : Dev) (h : DevEqUpToVersion d e) :
    (finish cfg d).err = (finish cfg e).err ∧
    (finish cfg d).dev.ops = (finish cfg e).dev.ops ∧
    (finish cfg d).boots = (finish cfg e).boots ∧
    ((finish cfg d).astate = .APP_IDLE ↔ (finish cfg e).astate = .APP_IDLE) := by
  have hi := image_upToVersion _ _ h.2.2
  have hfh : d.flash.fullhash = e.flash.fullhash := h.2.2.2.2.1
  have hcm : d.flash.complete = e.flash.complete := h.2.2.2.2.2.2.2.1
  by_cases hh : cfg.hash (image d.flash) = d.flash.fullhash
  · have hh2 : cfg.hash (image e.flash) = e.flash.fullhash := by rw [← hi, ← hfh]; exact hh
    have hc := flashCall_upToVersion d e (.progLocal d.flash.complete) h (fun _ => by simp)
    rcases finish_cases cfg d with h1 | h1
    · rcases finish_cases cfg e with h2 | h2
      · refine ⟨?_, ?_, by rw [h1.2.2.1, h2.2.2.1], ?_⟩
        · rw [finish_err_match cfg d hh, finish_err_match cfg e hh2]
          show (flashCall d _).1 = (flashCall e _).1
          rw [flashCall_err, flashCall_err, h.1]
        · rw [h1.1, h2.1, h.2.1, hcm]
        · rw [h1.2.2.2.1, h2.2.2.2.1]
          constructor
          · intro hx
            by_cases hr : (finish cfg d).running = true
            · rw [if_pos hr] at hx; cases hx
            · rw [if_neg hr] at hx; cases hx
          · intro hx
            by_cases hr : (finish cfg e).running = true
            · rw [if_pos hr] at hx; cases hx
            · rw [if_neg hr] at hx; cases hx
      · exact absurd hh2 h2.2.2.2.2.2
    · exact absurd hh h1.2.2.2.2.2
  · have hh2 : cfg.hash (image e.flash) ≠ e.flash.fullhash := by rw [← hi, ← hfh]; exact hh
    rw [finish_mismatch cfg d hh, finish_mismatch cfg e hh2]
    have hc := flashCall_upToVersion d e (.erase cfg.SECTOR_MIN cfg.SECTOR_COUNT) h
      (fun _ => by simp)
    exact ⟨hc.1, hc.2.2.1, rfl, Iff.rfl⟩

theorem updating_upToVersion (cfg : Config) (d e : Dev) (pkt : List Nat)
    (h : DevEqUpToVersion d e) :
    (updaterPacketProcess cfg .APP_UPDATING d pkt).err
      = (updaterPacketProcess cfg .APP_UPDATING e pkt).err ∧
    (updaterPacketProcess cfg .APP_UPDATING d pkt).dev.ops
      = (updaterPacketProcess cfg .APP_UPDATING e pkt).dev.ops ∧
    (updaterPacketProcess cfg .APP_UPDATING d pkt).boots
      = (updaterPacketProcess cfg .APP_UPDATING e pkt).boots ∧
    ((updaterPacketProcess cfg .APP_UPDATING d pkt).astate = .APP_IDLE ↔
      (updaterPacketProcess cfg .APP_UPDATING e pkt).astate = .APP_IDLE) ∧
    ((updaterPacketProcess cfg .APP_UPDATING d pkt).astate = .APP_UPDATING ↔
      (updaterPacketProcess cfg .APP_UPDATING e pkt).astate = .APP_UPDATING) := by
  obtain ⟨hc1, hc2, hc3⟩ := checkMagic_upToVersion cfg d e h
  by_cases hdata : byte pkt 0 &&& PKTTYPE_MASK = PKTTYPE_DATA
  · rw [updating_data_eq cfg d pkt hdata, updating_data_eq cfg e pkt hdata, ← hc1]
    have hw := writeBlock_upToVersion (checkMagic cfg d).1 _ _ pkt hc3
    have ha := alldone_upToVersion _ _ hw.2.2.2
    by_cases hz : alldone (writeBlock (checkMagic cfg d).1 (checkMagic cfg d).2.2 pkt).2.flash = 0
    · have hz2 := hz
      rw [ha] at hz2
      rw [if_pos hz, if_pos hz2]
      refine ⟨hw.1, hw.2.2.1, rfl, ?_, ?_⟩
      · show (checkMagic cfg d).2.1 = _ ↔ (checkMagic cfg e).2.1 = _
        rw [hc2]
      · show (checkMagic cfg d).2.1 = _ ↔ (checkMagic cfg e).2.1 = _
        rw [hc2]
    · have hz2 := hz
      rw [ha] at hz2
      rw [if_neg hz, if_neg hz2]
      have hf := finish_upToVersion cfg _ _ hw.2
      refine ⟨hf.1, hf.2.1, hf.2.2.1, hf.2.2.2, ?_⟩
      constructor
      · intro hx; exact absurd hx (finish_astate_ne_updating cfg _)
      · intro hx; exact absurd hx (finish_astate_ne_updating cfg _)
  · rw [updating_not_data cfg d pkt hdata, updating_not_data cfg e pkt hdata]
    refine ⟨hc1, hc3.2.1, rfl, ?_, ?_⟩
    · show (checkMagic cfg d).2.1 = _ ↔ (checkMagic cfg e).2.1 = _
      rw [hc2]
    · show (checkMagic cfg d).2.1 = _ ↔ (checkMagic cfg e).2.1 = _
      rw [hc2]

/-- C11, amended to the magic alone: for every packet processed in `APP_UPDATING`, the
ledger is treated as corrupt exactly when its magic differs from `STORAGE_MAGIC`; the
schema version is never read.  When the magic differs, the first driver call is the
erase of the managed sectors; for a packet that is not a data packet it is the only
driver call and the next state is `APP_IDLE`; and whenever the erase succeeds the next
state is `APP_IDLE`, the flash being left erased when the packet is not a data packet.
When the magic is good, whatever the schema version, a packet that is not a data
packet leaves the device untouched and the state `APP_UPDATING`, and a data packet is
processed as on a good ledger: the only driver calls are the claim and the program of
its block when the entry reads all-ones, followed by nothing and the state
`APP_UPDATING` when the scan is not done, by the completion call when it is done and
the hash matches, and by the erase and `APP_IDLE` only when it is done and the hash
differs.  Replacing the schema version by any value changes neither the driver calls,
nor the value returned, nor the number of calls of `bootToUserApp`, nor whether the
next state is `APP_IDLE` or `APP_UPDATING`. -/
theorem updating_magic_mismatch (cfg : Config) (d : Dev) (pkt : List Nat) :
    ((checkMagic cfg d).2.1 = .APP_IDLE ↔ d.flash.magic ≠ cfg.STORAGE_MAGIC) ∧
    (d.flash.magic ≠ cfg.STORAGE_MAGIC →
      (∃ rest, (updaterPacketProcess cfg .APP_UPDATING d pkt).dev.ops
        = d.ops ++ (.erase cfg.SECTOR_MIN cfg.SECTOR_COUNT :: rest)) ∧
      (byte pkt 0 &&& PKTTYPE_MASK ≠ PKTTYPE_DATA →
        (updaterPacketProcess cfg .APP_UPDATING d pkt).dev.ops
          = d.ops ++ [.erase cfg.SECTOR_MIN cfg.SECTOR_COUNT] ∧
        (updaterPacketProcess cfg .APP_UPDATING d pkt).astate = .APP_IDLE ∧
        (d.script.headD 0 = 0 →
          (updaterPacketProcess cfg .APP_UPDATING d pkt).dev.flash = Flash.erased)) ∧
      (d.script.headD 0 = 0 →
        (updaterPacketProcess cfg .APP_UPDATING d pkt).astate = .APP_IDLE)) ∧
    (d.flash.magic = cfg.STORAGE_MAGIC →
      (byte pkt 0 &&& PKTTYPE_MASK ≠ PKTTYPE_DATA →
        (updaterPacketProcess cfg .APP_UPDATING d pkt).dev = d ∧
        (updaterPacketProcess cfg .APP_UPDATING d pkt).astate = .APP_UPDATING ∧
        (updaterPacketProcess cfg .APP_UPDATING d pkt).err = 0 ∧
        (updaterPacketProcess cfg .APP_UPDATING d pkt).boots = 0) ∧
      (byte pkt 0 &&& PKTTYPE_MASK = PKTTYPE_DATA →
        ∃ rest, (updaterPacketProcess cfg .APP_UPDATING d pkt).dev.ops
            = d.ops ++ (if d.flash.blockmap (blockOf pkt) = ALL_ONES then
                [.progBlockmap (blockOf pkt) 0,
                 .progPayload (blockOf pkt * BLOCK_SIZE) (payloadOf pkt)]
              else []) ++ rest ∧
          ((rest = [] ∧ alldone (writeBlock 0 d pkt).2.flash = 0 ∧
              (updaterPacketProcess cfg .APP_UPDATING d pkt).astate = .APP_UPDATING) ∨
           (rest = [.progLocal d.flash.complete] ∧
              alldone (writeBlock 0 d pkt).2.flash ≠ 0 ∧
              cfg.hash (image (writeBlock 0 d pkt).2.flash) = d.flash.fullhash ∧
              (updaterPacketProcess cfg .APP_UPDATING d pkt).boots = 1) ∨
           (rest = [.erase cfg.SECTOR_MIN cfg.SECTOR_COUNT] ∧
              alldone (writeBlock 0 d pkt).2.flash ≠ 0 ∧
              cfg.hash (image (writeBlock 0 d pkt).2.flash) ≠ d.flash.fullhash ∧
              (updaterPacketProcess cfg .APP_UPDATING d pkt).astate = .APP_IDLE)))) ∧
    (∀ v,
      (updaterPacketProcess cfg .APP_UPDATING
          { flash := withVersion d.flash v, script := d.script, ops := d.ops } pkt).dev.ops
        = (updaterPacketProcess cfg .APP_UPDATING d pkt).dev.ops ∧
      (updaterPacketProcess cfg .APP_UPDATING
          { flash := withVersion d.flash v, script := d.script, ops := d.ops } pkt).err
        = (updaterPacketProcess cfg .APP_UPDATING d pkt).err ∧
      (updaterPacketProcess cfg .APP_UPDATING
          { flash := withVersion d.flash v, script := d.script, ops := d.ops } pkt).boots
        = (updaterPacketProcess cfg .APP_UPDATING d pkt).boots ∧
      ((updaterPacketProcess cfg .APP_UPDATING
          { flash := withVersion d.flash v, script := d.script, ops := d.ops } pkt).astate
          = .APP_IDLE ↔
        (updaterPacketProcess cfg .APP_UPDATING d pkt).astate = .APP_IDLE) ∧
      ((updaterPacketProcess cfg .APP_UPDATING
          { flash := withVersion d.flash v, script := d.script, ops := d.ops } pkt).astate
          = .APP_UPDATING ↔
        (updaterPacketProcess cfg .APP_UPDATING d pkt).astate = .APP_UPDATING)) := by
  refine ⟨?_, ?_, ?_, ?_⟩
  · by_cases hm : d.flash.magic = cfg.STORAGE_MAGIC
    · rw [checkMagic_ok cfg d hm]
      constructor
      · intro h; cases h
      · intro h; exact absurd hm h
    · rw [checkMagic_corrupt cfg d hm]
      exact ⟨fun _ => hm, fun _ => rfl⟩
  · intro hmagic
    refine ⟨updating_corrupt_first_op cfg d pkt hmagic, ?_, ?_⟩
    · intro hnd
      rw [updating_not_data cfg d pkt hnd, checkMagic_corrupt cfg d hmagic]
      exact ⟨flashCall_ops _ _, rfl, fun he => flashCall_flash_ok d _ he⟩
    · intro he
      by_cases hdata : byte pkt 0 &&& PKTTYPE_MASK = PKTTYPE_DATA
      · exact updating_corrupt_erased_idle cfg d pkt hmagic hdata he
      · rw [updating_not_data cfg d pkt hdata, checkMagic_corrupt cfg d hmagic]
  · intro hmagic
    refine ⟨?_, ?_⟩
    · intro hnd
      rw [updating_not_data cfg d pkt hnd, checkMagic_ok cfg d hmagic]
      exact ⟨rfl, rfl, rfl, rfl⟩
    · intro hdata
      have hhdr := writeBlock_header 0 d pkt
      have hops : (writeBlock 0 d pkt).2.ops
          = d.ops ++ (if d.flash.blockmap (blockOf pkt) = ALL_ONES then
                [.progBlockmap (blockOf pkt) 0,
                 .progPayload (blockOf pkt * BLOCK_SIZE) (payloadOf pkt)]
              else []) := by
        by_cases h : d.flash.blockmap (blockOf pkt) = ALL_ONES
        · rw [if_pos h]; exact writeBlock_ops_free 0 d pkt h
        · rw [if_neg h, writeBlock_claimed 0 d pkt h, List.append_nil]
      rw [updating_data_ok cfg d pkt hmagic hdata]
      by_cases ha : alldone (writeBlock 0 d pkt).2.flash = 0
      · rw [if_pos ha]
        exact ⟨[], by rw [List.append_nil]; exact hops, Or.inl ⟨rfl, ha, rfl⟩⟩
      · rw [if_neg ha]
        rcases finish_cases cfg (writeBlock 0 d pkt).2 with hc | hc
        · refine ⟨[.progLocal d.flash.complete], by rw [hc.1, hops, hhdr.2.2.2],
            Or.inr (Or.inl ⟨rfl, ha, ?_, hc.2.2.1⟩)⟩
          rw [← hhdr.2.2.1]; exact hc.2.2.2.2
        · refine ⟨[.erase cfg.SECTOR_MIN cfg.SECTOR_COUNT], by rw [hc.1, hops],
            Or.inr (Or.inr ⟨rfl, ha, ?_, hc.2.2.2.1⟩)⟩
          rw [← hhdr.2.2.1]; exact hc.2.2.2.2.2
  · intro v
    have h := updating_upToVersion cfg
      { flash := withVersion d.flash v, script := d.script, ops := d.ops } d pkt
      ⟨rfl, rfl, rfl, rfl, rfl, rfl, rfl, rfl, rfl⟩
    exact ⟨h.2.1, h.1, h.2.2.1, h.2.2.2.1, h.2.2.2.2⟩

/-- Witness for C11, amended: the erased ledger (magic 0xFFFFFFFF) and a control
packet, which is erased; and the ledger with a good magic and schema version 2 and the
same control packet, which is left untouched. -/
theorem updating_magic_mismatch_witness :
    Flash.erased.magic ≠ sampleCfg.STORAGE_MAGIC ∧
    (updaterPacketProcess sampleCfg .APP_UPDATING (Dev.fresh Flash.erased) ctrlPkt1).dev.ops
      = [.erase 22 10] ∧
    (updaterPacketProcess sampleCfg .APP_UPDATING (Dev.fresh Flash.erased) ctrlPkt1).astate
      = .APP_IDLE ∧
    wrongVersionLedger.magic = sampleCfg.STORAGE_MAGIC ∧
    wrongVersionLedger.version ≠ sampleCfg.STORAGE_VERSION ∧
    (updaterPacketProcess sampleCfg .APP_UPDATING
      (Dev.fresh wrongVersionLedger) ctrlPkt1).dev = Dev.fresh wrongVersionLedger ∧
    (updaterPacketProcess sampleCfg .APP_UPDATING
      (Dev.fresh wrongVersionLedger) ctrlPkt1).astate = .APP_UPDATING :=
  ⟨by decide,
   ((updating_magic_mismatch sampleCfg (Dev.fresh Flash.erased) ctrlPkt1).2.1
      (by decide)).2.1 (by decide) |>.1,
   ((updating_magic_mismatch sampleCfg (Dev.fresh Flash.erased) ctrlPkt1).2.1
      (by decide)).2.1 (by decide) |>.2.1,
   rfl, by decide,
   ((updating_magic_mismatch sampleCfg (Dev.fresh wrongVersionLedger) ctrlPkt1).2.2.1
      rfl).1 (by decide) |>.1,
   ((updating_magic_mismatch sampleCfg (Dev.fresh wrongVersionLedger) ctrlPkt1).2.2.1
      rfl).1 (by decide) |>.2.1⟩

end Orchard
